import Mathlib

/-!
# protoc-gen-go-client: the client generator

A shallow embedding of `tools/protoc/protoc-gen-go-client/client.go`:
`generateFiles`, `genClient` and `lowerCaptain`.

* Go strings are Lean strings, read as sequences of runes: the embedding covers
  valid UTF-8 strings (what `protogen` hands to the generator).
* `*protogen.Plugin` is a mutable object; it is threaded through explicitly, and a Go
  `error` result is an `Option GoError` (`none` is `nil`) next to the resulting state.
* What the file takes from elsewhere is a parameter (`Env`): the `unicode`
  tables, `sort.Slice`, the constant `genName` and the function `genProvider`.
-/

namespace GoClient

/-! ## The `protogen` data model -/

/-- The Go type `protogen.GoIdent`: a Go identifier together with the import path of its package. -/
structure GoIdent where
  GoName : String
  GoImportPath : String
  deriving DecidableEq, Repr

/-- The Go method `GoImportPath.Ident`: the identifier `s` of the package at path `p`. -/
def Ident (p : String) (s : String) : GoIdent := ⟨s, p⟩

/-- The Go type `protogen.Message`, of which only `GoIdent` is read. -/
structure Message where
  GoIdent : GoIdent
  deriving DecidableEq, Repr

/-- The Go type `protogen.Method`. -/
structure Method where
  GoName : String
  Input : Message
  Output : Message
  deriving DecidableEq, Repr

/-- The Go type `protogen.Service`. -/
structure Service where
  GoName : String
  Methods : List Method
  deriving DecidableEq, Repr

/-- The Go method `protoreflect.FullName.Name`: what follows the last `.` of a full name
(the whole name when it has no `.`). -/
def shortName (full : String) : String :=
  String.mk (full.data.reverse.takeWhile (fun c => c != '.')).reverse

/-- The part of `protoreflect.FileDescriptor` the generator reads: `Path()` and `Package()`. -/
structure FileDesc where
  Path : String
  Package : String
  deriving DecidableEq, Repr

/-- The Go method `Name()` of a file descriptor. `protoreflect.FileDescriptor` embeds
`Descriptor` with the remark "Descriptor.FullName is identical to Package", and `Name` is
"the short name of the declaration (i.e., FullName.Name())": for a file it is the last
component of its proto package, not the file's path (which is `Path()`). -/
def FileDesc.Name (d : FileDesc) : String := shortName d.Package

/-- The Go type `protogen.File`. -/
structure File where
  Desc : FileDesc
  GoImportPath : String
  Services : List Service
  deriving DecidableEq, Repr

/-! ## Generated output -/

/-- One argument of `g.P`: a string, or a `GoIdent` (printed qualified by `protogen`). -/
inductive Arg where
  | str (s : String)
  | ident (i : GoIdent)
  deriving DecidableEq, Repr

/-- One call of `g.P`: a line of output, as the list of its arguments. -/
abbrev Line := List Arg

/-- The Go type `protogen.GeneratedFile`: name, import path and the lines printed so far. -/
structure GeneratedFile where
  filename : String
  goImportPath : String
  buf : List Line
  deriving DecidableEq, Repr

/-- The Go type `protogen.Plugin`, as far as the generator changes it: the generated files,
in the order `NewGeneratedFile` created them. -/
structure Plugin where
  genFiles : List GeneratedFile
  deriving DecidableEq, Repr

/-- An operand of `fmt.Errorf`, with the Go type it has in the source. -/
inductive Operand where
  | importPath (p : String)
  | fullName (n : String)
  deriving DecidableEq, Repr

/-- The value of `fmt.Errorf(format, args...)`: the format and its operands, unrendered. -/
structure GoError where
  format : String
  args : List Operand
  deriving DecidableEq, Repr

/-! ## What the file takes from elsewhere -/

/-- The three functions of Go's `unicode` package that `lowerCaptain` calls. -/
structure Unicode where
  IsUpper : Char → Bool
  IsLower : Char → Bool
  ToLower : Char → Char

/-- The surroundings of `client.go`: the `unicode` tables, `sort.Slice` (given the `less`
function and the slice, it returns the rearranged slice; the closure of the source compares
the elements at two indices of the slice being sorted, here `less` compares the two
elements), the constant `genName` (declared in another file of the package) and
`genProvider` (defined in another file of the package). -/
structure Env where
  unicode : Unicode
  sortSlice : (File → File → Bool) → List File → List File
  genName : String
  genProvider : Plugin → List File → Option File → String → Plugin × Option GoError

/-- Go's `<` on strings: lexicographic on bytes, which for UTF-8 is lexicographic on runes. -/
def runesLess : List Char → List Char → Bool
  | _, [] => false
  | [], _ :: _ => true
  | a :: as, b :: bs =>
    if a.toNat < b.toNat then true
    else if b.toNat < a.toNat then false
    else runesLess as bs

/-- Go's `s < t` on strings. -/
def stringLess (s t : String) : Bool := runesLess s.data t.data

/-! ## `lowerCaptain` -/

/-- The loop of `lowerCaptain` (lines 142-147) from the current position on: a rune of the
other case class than `pre` ends the loop, any other is replaced by `unicode.ToLower` of it. -/
def lowerLoop (U : Unicode) (pre : Char) : List Char → List Char
  | [] => []
  | c :: cs =>
    if U.IsUpper c != U.IsUpper pre then c :: cs
    else U.ToLower c :: lowerLoop U pre cs

/-- The Go function `lowerCaptain`. -/
def lowerCaptain (U : Unicode) (name : String) : String :=
  if name.utf8ByteSize ≤ 0 then name
  else
    match name.data with
    | [] => name
    | pre :: _ =>
      if U.IsLower pre then name
      else String.mk (lowerLoop U pre name.data)

/-! ## `genClient`

In the string literals of this section `\x7b` and `\x7d` are the opening and the closing
brace, and `\t` is the tab that starts some of the source's strings. -/

def contextPackage : String := "context"
def grpcPackage : String := "google.golang.org/grpc"
def transgrpcPackage : String := "github.com/erda-project/erda-infra/pkg/transport/grpc"

/-- Lines 78-83: the body of `type Client interface`. -/
def interfaceBody (files : List File) : List Line :=
  files.flatMap fun file => file.Services.flatMap fun ser =>
    [ [.str "// ", .str ser.GoName, .str " ", .str file.Desc.Path],
      [.str ser.GoName, .str "() ", .ident (Ident file.GoImportPath (ser.GoName ++ "Client"))] ]

/-- Lines 89-93: the fields of the struct literal in `New`. -/
def factoryBody (U : Unicode) (files : List File) : List Line :=
  files.flatMap fun file => file.Services.flatMap fun ser =>
    [ [.str (lowerCaptain U ser.GoName), .str ": ",
       .ident (Ident file.GoImportPath ("New" ++ ser.GoName ++ "Client")), .str "(cc),"] ]

/-- Lines 98-102: the fields of `type serviceClients struct`. -/
def structBody (U : Unicode) (files : List File) : List Line :=
  files.flatMap fun file => file.Services.flatMap fun ser =>
    [ [.str (lowerCaptain U ser.GoName), .str " ",
       .ident (Ident file.GoImportPath (ser.GoName ++ "Client"))] ]

/-- Lines 105-112: the accessor methods of `serviceClients`. -/
def accessorImpls (U : Unicode) (files : List File) : List Line :=
  files.flatMap fun file => file.Services.flatMap fun ser =>
    [ [.str "func (c *serviceClients) ", .str ser.GoName, .str "() ",
       .ident (Ident file.GoImportPath (ser.GoName ++ "Client")), .str " \x7b"],
      [.str "\treturn c.", .str (lowerCaptain U ser.GoName)],
      [.str "\x7d"],
      [] ]

/-- Lines 123-126: the dispatch function of one method on the wrapper type `typeName`. -/
def wrapperMethod (typeName : String) (m : Method) : List Line :=
  [ [.str "func (s *", .str typeName, .str ") ", .str m.GoName, .str "(ctx ",
     .ident (Ident contextPackage "Context"), .str ",req *", .ident m.Input.GoIdent,
     .str ") (*", .ident m.Output.GoIdent, .str ", error) \x7b"],
    [.str "\treturn s.client.", .str m.GoName, .str "(ctx, req, append(",
     .ident (Ident transgrpcPackage "CallOptionFromContext"), .str "(ctx), s.opts...)...)"],
    [.str "\x7d"],
    [] ]

/-- Lines 114-129: the wrapper type of every service, each followed by its dispatch functions. -/
def wrapperTypes (U : Unicode) (files : List File) : List Line :=
  files.flatMap fun file => file.Services.flatMap fun ser =>
    let typeName := lowerCaptain U ser.GoName ++ "Wrapper"
    [ [.str ("type " ++ typeName ++ " struct \x7b")],
      [.str "\tclient ", .ident (Ident file.GoImportPath (ser.GoName ++ "Client"))],
      [.str "\topts   []", .ident (Ident grpcPackage "CallOption")],
      [.str "\x7d"],
      [] ]
    ++ ser.Methods.flatMap (wrapperMethod typeName)

/-- Every `g.P` call of `genClient`, in order (lines 71-129). -/
def genClientLines (E : Env) (files : List File) (sources : String) : List Line :=
  [ [.str "// Code generated by ", .str E.genName, .str ". DO NOT EDIT."],
    [.str "// Sources: ", .str sources],
    [],
    [.str "package ", .str "client"],
    [],
    [.str "// Client provide all service clients."],
    [.str "type Client interface \x7b"] ]
  ++ interfaceBody files
  ++ [ [.str "\x7d"],
       [],
       [.str "// New create client"],
       [.str "func New(cc ", .ident (Ident transgrpcPackage "ClientConnInterface"),
        .str ") Client \x7b"],
       [.str "\treturn &serviceClients\x7b"] ]
  ++ factoryBody E.unicode files
  ++ [ [.str "\t\x7d"],
       [.str "\x7d"],
       [],
       [.str "type serviceClients struct \x7b"] ]
  ++ structBody E.unicode files
  ++ [ [.str "\x7d"],
       [] ]
  ++ accessorImpls E.unicode files
  ++ [ [] ]
  ++ wrapperTypes E.unicode files

/-- The Go function `genClient`: `gen.NewGeneratedFile("client.go", "client")` adds an output
file to the plugin, the `g.P` calls fill it, and the result is `nil`. The parameter `root`
is not read. -/
def genClient (E : Env) (gen : Plugin) (files : List File) (_root : Option File)
    (sources : String) : Plugin × Option GoError :=
  (⟨gen.genFiles ++ [⟨"client.go", "client", genClientLines E files sources⟩]⟩, none)

/-! ## `generateFiles` -/

/-- The local variables of `generateFiles` that the loop of lines 39-54 updates; `file` is a
pointer in the source, `none` standing for `nil`. The counter is an `int` in the source; it
stays below the number of services held in memory, so it is a natural number here. -/
structure ScanState where
  count : Nat
  paths : List String
  file : Option File
  deriving DecidableEq, Repr

/-- The `less` function handed to `sort.Slice` (line 34). -/
def lessByName (a b : File) : Bool := stringLess a.Desc.Name b.Desc.Name

/-- One iteration of the loop of lines 39-54: the next state, or the error returned. The
appended path and the first file recorded are local to `generateFiles`, so they are lost
when an error is returned. -/
def scanStep (st : ScanState) (f : File) : Except GoError ScanState :=
  if f.Services.length ≤ 0 then .ok st
  else
    let count := st.count + f.Services.length
    let file := match st.file with
      | none => f
      | some r => r
    let paths := st.paths ++ [f.Desc.Path]
    if f.GoImportPath ≠ file.GoImportPath then
      .error ⟨"package path conflict between %s and %s",
        [.importPath file.GoImportPath, .importPath f.GoImportPath]⟩
    else if f.Desc.Package ≠ file.Desc.Package then
      .error ⟨"package path conflict between %s and %s",
        [.fullName file.Desc.Package, .fullName f.Desc.Package]⟩
    else .ok ⟨count, paths, some file⟩

/-- The loop of lines 39-54 over the remaining files. -/
def scan : ScanState → List File → Except GoError ScanState
  | st, [] => .ok st
  | st, f :: fs =>
    match scanStep st f with
    | .error e => .error e
    | .ok st' => scan st' fs

/-- The Go function `generateFiles`. `sort.Slice` rearranges the caller's slice in place, so
every later use of `files` sees the rearranged slice. -/
def generateFiles (E : Env) (gen : Plugin) (files : List File) : Plugin × Option GoError :=
  let files := E.sortSlice lessByName files
  match scan ⟨0, [], none⟩ files with
  | .error e => (gen, some e)
  | .ok st =>
    if st.count ≤ 0 then (gen, none)
    else
      let sources := ", ".intercalate st.paths
      match genClient E gen files st.file sources with
      | (gen, some err) => (gen, some err)
      | (gen, none) => E.genProvider gen files st.file sources


/-! ## Concrete surroundings

Universal statements below are about an arbitrary `Env`; the definitions of this section
give the concrete surroundings at which statements are evaluated. -/

/-- Go's `unicode.IsUpper`, `unicode.IsLower` and `unicode.ToLower` on the ASCII range
(`A`-`Z` are the upper-case and `a`-`z` the lower-case letters, `ToLower` adds `'a' - 'A'` to
an upper-case letter), with three entries of Go's tables beyond ASCII: U+2102 is an
upper-case letter (category Lu) without a lower-case mapping, U+01C5 is a title-case letter
(category Lt, neither upper nor lower case) whose lower-case mapping is U+01C6, and U+01C6
is a lower-case letter. Other runes beyond ASCII are not modelled: the table treats them as
caseless, and no statement below evaluates it there. -/
def unicodeExcerpt : Unicode where
  IsUpper c :=
    if c.toNat < 128 then decide (65 ≤ c.toNat ∧ c.toNat ≤ 90)
    else c.toNat == 0x2102
  IsLower c :=
    if c.toNat < 128 then decide (97 ≤ c.toNat ∧ c.toNat ≤ 122)
    else c.toNat == 0x1C6
  ToLower c :=
    if c.toNat < 128 then
      if 65 ≤ c.toNat ∧ c.toNat ≤ 90 then Char.ofNat (c.toNat + 32) else c
    else if c.toNat == 0x1C5 then Char.ofNat 0x1C6
    else c

/-- The inner loop of Go's `insertionSort_func`: the element `x` moves left past every
element it is `less` than. The sorted part is given nearest neighbour first. -/
def sinkLeft {α : Type} (less : α → α → Bool) (x : α) : List α → List α
  | [] => [x]
  | y :: ys => if less x y then y :: sinkLeft less x ys else x :: y :: ys

/-- The outer loop of Go's `insertionSort_func`: `done` is the sorted part, nearest
neighbour first, followed by the elements still to insert. -/
def insertionSortFrom {α : Type} (less : α → α → Bool) : List α → List α → List α
  | done, [] => done.reverse
  | done, x :: xs => insertionSortFrom less (sinkLeft less x done) xs

/-- Go's `insertionSort_func`, which is all that `sort.Slice` runs on a slice of at most 12
elements since Go 1.19. -/
def insertionSort {α : Type} (less : α → α → Bool) (data : List α) : List α :=
  insertionSortFrom less [] data

/-- One step of the gap-6 pass: `if data.Less(i, j) { data.Swap(i, j) }`. -/
def swapIfLess {α : Type} (less : α → α → Bool) (data : List α) (i j : Nat) : List α :=
  match data[i]?, data[j]? with
  | some x, some y => if less x y then (data.set i y).set j x else data
  | _, _ => data

/-- The gap-6 pass of `quickSort_func` in Go up to 1.18:
`for i := a + 6; i < b; i++ { if data.Less(i, i-6) { data.Swap(i, i-6) } }`. -/
def shellPass {α : Type} (less : α → α → Bool) (data : List α) : List α :=
  (List.range (data.length - 6)).foldl (fun d k => swapIfLess less d (k + 6) k) data

/-- What `sort.Slice` runs on a slice of at most 12 elements in Go up to 1.18 (the releases
current when `client.go` was written): the gap-6 pass, then `insertionSort_func`. -/
def quickSortSmall {α : Type} (less : α → α → Bool) (data : List α) : List α :=
  insertionSort less (shellPass less data)

/-- Modelled from the spec: `genProvider` is defined in another file of the package, which is
not among the sources. The spec describes emission as text construction on validated data in
which failure is not expected, and names a single output unit; this stand-in returns `nil`
and leaves the plugin as it is. -/
def genProviderModel : Plugin → List File → Option File → String → Plugin × Option GoError :=
  fun gen _ _ _ => (gen, none)

/-- Concrete surroundings with the sort of Go 1.19 and later on short slices. -/
def envInsertion : Env := ⟨unicodeExcerpt, insertionSort, "protoc-gen-go-client", genProviderModel⟩

/-- Concrete surroundings with the sort of Go up to 1.18 on short slices. -/
def envQuick : Env := ⟨unicodeExcerpt, quickSortSmall, "protoc-gen-go-client", genProviderModel⟩

/-! ## Notions used in the statements -/

/-- What every use of `sort.Slice` may rely on: the result is a rearrangement of the slice.
(The order it establishes is not needed for the statements that assume this.) -/
def SortPermutes (sortSlice : (File → File → Bool) → List File → List File) : Prop :=
  ∀ less xs, (sortSlice less xs).Perm xs

/-- The function `genProvider` never returns an error. -/
def ProviderSucceeds
    (genProvider : Plugin → List File → Option File → String → Plugin × Option GoError) : Prop :=
  ∀ gen files root sources, (genProvider gen files root sources).2 = none

/-- The function `genProvider` keeps the output files the plugin already has. -/
def ProviderKeeps
    (genProvider : Plugin → List File → Option File → String → Plugin × Option GoError) : Prop :=
  ∀ gen files root sources, ∀ u ∈ gen.genFiles, u ∈ (genProvider gen files root sources).1.genFiles

/-- The file declares at least one service. -/
def File.hasServices (f : File) : Bool := decide (0 < f.Services.length)

/-- Two files differ in Go import path or in proto package. -/
def File.conflictsWith (f g : File) : Prop :=
  f.GoImportPath ≠ g.GoImportPath ∨ f.Desc.Package ≠ g.Desc.Package

/-- The input has two service-declaring files that differ in import path or package. -/
def HasConflict (files : List File) : Prop :=
  ∃ f ∈ files, ∃ g ∈ files, f.hasServices = true ∧ g.hasServices = true ∧ f.conflictsWith g

/-- The descriptor paths of the service-declaring files of a list, in the list's order. -/
def servicePaths (files : List File) : List String :=
  (files.filter File.hasServices).map (fun f => f.Desc.Path)

/-- The (file, service) pairs of a list of files: files in the order of the list and, within
a file, services in the order of declaration. -/
def servicePairs (files : List File) : List (File × Service) :=
  files.flatMap fun f => f.Services.map fun s => (f, s)

/-- The number of times `a` occurs in a list. -/
def occurrences {α : Type} [DecidableEq α] (a : α) (l : List α) : Nat :=
  l.countP (fun x => decide (x = a))

/-- The seven lines that `genClient` prints before the interface body (lines 71-77). -/
def linesBeforeInterface (E : Env) (sources : String) : List Line :=
  [ [.str "// Code generated by ", .str E.genName, .str ". DO NOT EDIT."],
    [.str "// Sources: ", .str sources],
    [],
    [.str "package ", .str "client"],
    [],
    [.str "// Client provide all service clients."],
    [.str "type Client interface \x7b"] ]

/-- The five lines between the interface body and the factory literal (lines 84-88). -/
def linesBeforeFactory : List Line :=
  [ [.str "\x7d"],
    [],
    [.str "// New create client"],
    [.str "func New(cc ", .ident (Ident transgrpcPackage "ClientConnInterface"),
     .str ") Client \x7b"],
    [.str "\treturn &serviceClients\x7b"] ]

/-- The four lines between the factory literal and the struct fields (lines 94-97). -/
def linesBeforeStruct : List Line :=
  [ [.str "\t\x7d"],
    [.str "\x7d"],
    [],
    [.str "type serviceClients struct \x7b"] ]

/-- The two lines between the struct fields and the accessor implementations
(lines 103-104). -/
def linesBeforeAccessors : List Line :=
  [ [.str "\x7d"],
    [] ]

/-- The layout of the buffer of `client.go`: the five sections between the fixed lines, and
the empty line of line 113 before the wrapper types. -/
def clientLayout (E : Env) (files : List File) (sources : String) : List Line :=
  linesBeforeInterface E sources ++ interfaceBody files ++ linesBeforeFactory ++
    factoryBody E.unicode files ++ linesBeforeStruct ++ structBody E.unicode files ++
    linesBeforeAccessors ++ accessorImpls E.unicode files ++ [[]] ++
    wrapperTypes E.unicode files

instance (f g : File) : Decidable (f.conflictsWith g) := by
  unfold File.conflictsWith; exact inferInstance

/-- The root the loop ends with: the one it started with, or else the first
service-declaring file. -/
def rootAfter (start : Option File) (fs : List File) : Option File :=
  match start with
  | some r => some r
  | none => fs.find? File.hasServices

/-- The tables agree with Go's `unicode` package on the ASCII range, where Go decides all
three functions by comparison with `A`-`Z` and `a`-`z`. -/
def GoASCII (U : Unicode) : Prop :=
  ∀ c : Char, c.toNat < 128 →
    U.IsUpper c = decide (65 ≤ c.toNat ∧ c.toNat ≤ 90) ∧
    U.IsLower c = decide (97 ≤ c.toNat ∧ c.toNat ≤ 122) ∧
    U.ToLower c = if 65 ≤ c.toNat ∧ c.toNat ≤ 90 then Char.ofNat (c.toNat + 32) else c

/-- The maximal leading run of runes that have the upper-case class of the first rune. -/
def leadingRun (U : Unicode) (cs : List Char) : List Char :=
  match cs with
  | [] => []
  | c0 :: _ => cs.takeWhile (fun c => U.IsUpper c == U.IsUpper c0)

/-- The reference definition of the identifier transform, following the words of the
specification: the leading run with every rune replaced by its lower-case form, followed by
the rest of the identifier unchanged. -/
def lowerCaptainRef (U : Unicode) (s : String) : String :=
  String.mk ((leadingRun U s.data).map U.ToLower ++ s.data.drop (leadingRun U s.data).length)

/-- The identifier starts with a rune that `unicode.IsLower` accepts. -/
def startsLower (U : Unicode) (s : String) : Bool :=
  match s.data with
  | [] => false
  | c :: _ => U.IsLower c

/-! ## Inputs at which statements are evaluated -/

/-- A file `a.proto` of package `p` with the service `Alpha`. -/
def alphaFile : File := ⟨⟨"a.proto", "p"⟩, "x/p", [⟨"Alpha", []⟩]⟩

/-- A file `b.proto` of the same package and import path with the service `Beta`. -/
def betaFile : File := ⟨⟨"b.proto", "p"⟩, "x/p", [⟨"Beta", []⟩]⟩

/-- A file of package `p` without services. -/
def plainFile (path : String) : File := ⟨⟨path, "p"⟩, "x/p", []⟩

/-- A file of another package, `z`, without services. -/
def otherPackageFile : File := ⟨⟨"z.proto", "z"⟩, "x/z", []⟩

/-- A service-declaring file with import path `a/b`. -/
def leftFile : File := ⟨⟨"l.proto", "p"⟩, "a/b", [⟨"Left", []⟩]⟩

/-- A service-declaring file of the same package with import path `a/c`. -/
def rightFile : File := ⟨⟨"r.proto", "p"⟩, "a/c", [⟨"Right", []⟩]⟩

/-- Seven files: `a.proto` and `b.proto` declare services, in this order; the first file is
of another package, the others are of package `p`. -/
def sevenFiles : List File :=
  [otherPackageFile, alphaFile, plainFile "c.proto", plainFile "d.proto", plainFile "e.proto",
   plainFile "f.proto", betaFile]

/-- The identifier that consists of the rune U+2102 (double-struck capital C). -/
def doubleStruckC : String := String.mk [Char.ofNat 0x2102]

/-- The identifier `a` followed by the rune U+01C5 (title-case letter dz with caron). -/
def lowerThenTitle : String := String.mk ['a', Char.ofNat 0x1C5]

/-- A service-declaring file of package `b` with import path `x/b`. -/
def packageBFile : File := ⟨⟨"first.proto", "b"⟩, "x/b", [⟨"Bee", []⟩]⟩

/-- A service-declaring file of package `a` with import path `x/a`. -/
def packageAFile : File := ⟨⟨"second.proto", "a"⟩, "x/a", [⟨"Ay", []⟩]⟩

/-- A file of package `p` that declares the service `Foo`. -/
def fooFileOne : File := ⟨⟨"one.proto", "p"⟩, "x/p", [⟨"Foo", []⟩]⟩

/-- Another file of the same package and import path that declares a service `Foo`. -/
def fooFileTwo : File := ⟨⟨"two.proto", "p"⟩, "x/p", [⟨"Foo", []⟩]⟩

/-- A file that declares the services `ABC` and `ABc`. -/
def acronymFile : File := ⟨⟨"abc.proto", "p"⟩, "x/p", [⟨"ABC", []⟩, ⟨"ABc", []⟩]⟩

/-! ## The validation loop: lemmas -/

theorem hasServices_false {f : File} (h : f.Services.length ≤ 0) : f.hasServices = false := by
  unfold File.hasServices
  exact decide_eq_false (by omega)

theorem hasServices_true {f : File} (h : ¬ f.Services.length ≤ 0) : f.hasServices = true := by
  unfold File.hasServices
  exact decide_eq_true (by omega)

/-- A step of the loop that succeeds: the file has no service and nothing changes, or it
agrees with the root and is recorded. -/
theorem scanStep_ok {st st1 : ScanState} {f : File} (h : scanStep st f = .ok st1) :
    (f.hasServices = false ∧ st1 = st) ∨
    (f.hasServices = true ∧ f.GoImportPath = (st.file.getD f).GoImportPath ∧
      f.Desc.Package = (st.file.getD f).Desc.Package ∧
      st1 = ⟨st.count + f.Services.length, st.paths ++ [f.Desc.Path], some (st.file.getD f)⟩) := by
  have hroot : (match st.file with | none => f | some r => r) = st.file.getD f := by
    cases st.file <;> rfl
  unfold scanStep at h
  rw [hroot] at h
  by_cases hs : f.Services.length ≤ 0
  · left
    rw [if_pos hs] at h
    exact ⟨hasServices_false hs, (Except.ok.inj h).symm⟩
  · right
    rw [if_neg hs] at h
    by_cases hip : f.GoImportPath ≠ (st.file.getD f).GoImportPath
    · simp [hip] at h
    · by_cases hpk : f.Desc.Package ≠ (st.file.getD f).Desc.Package
      · simp [hip, hpk] at h
      · simp only [hip, hpk, if_false] at h
        exact ⟨hasServices_true hs, not_not.1 hip, not_not.1 hpk, (Except.ok.inj h).symm⟩

/-- A step of the loop that fails: the file has a service and differs from the root, in its
Go import path or else in package, and the error names the root first and the file second. -/
theorem scanStep_error {st : ScanState} {f : File} {e : GoError} (h : scanStep st f = .error e) :
    f.hasServices = true ∧
    ((f.GoImportPath ≠ (st.file.getD f).GoImportPath ∧
        e = ⟨"package path conflict between %s and %s",
          [.importPath (st.file.getD f).GoImportPath, .importPath f.GoImportPath]⟩) ∨
     (f.GoImportPath = (st.file.getD f).GoImportPath ∧
        f.Desc.Package ≠ (st.file.getD f).Desc.Package ∧
        e = ⟨"package path conflict between %s and %s",
          [.fullName (st.file.getD f).Desc.Package, .fullName f.Desc.Package]⟩)) := by
  have hroot : (match st.file with | none => f | some r => r) = st.file.getD f := by
    cases st.file <;> rfl
  unfold scanStep at h
  rw [hroot] at h
  by_cases hs : f.Services.length ≤ 0
  · rw [if_pos hs] at h
    cases h
  · rw [if_neg hs] at h
    refine ⟨hasServices_true hs, ?_⟩
    by_cases hip : f.GoImportPath ≠ (st.file.getD f).GoImportPath
    · left
      rw [if_pos hip] at h
      exact ⟨hip, (Except.error.inj h).symm⟩
    · right
      rw [if_neg hip] at h
      by_cases hpk : f.Desc.Package ≠ (st.file.getD f).Desc.Package
      · rw [if_pos hpk] at h
        exact ⟨not_not.1 hip, hpk, (Except.error.inj h).symm⟩
      · rw [if_neg hpk] at h
        cases h

theorem rootAfter_cons_false {start : Option File} {f : File} {fs : List File}
    (hq : f.hasServices = false) : rootAfter start (f :: fs) = rootAfter start fs := by
  cases start <;> simp [rootAfter, hq]

theorem rootAfter_cons_true {start : Option File} {f : File} {fs : List File}
    (hq : f.hasServices = true) :
    rootAfter start (f :: fs) = rootAfter (some (start.getD f)) fs := by
  cases start <;> simp [rootAfter, hq]

/-- A run of the loop that succeeds: the root, the paths and the count it ends with, and
every service-declaring file agrees with the root. -/
theorem scan_ok (fs : List File) : ∀ (st st' : ScanState), scan st fs = .ok st' →
    st'.file = rootAfter st.file fs ∧
    st'.paths = st.paths ++ servicePaths fs ∧
    st'.count = st.count + ((fs.filter File.hasServices).map (fun f => f.Services.length)).sum ∧
    ∀ r, st'.file = some r → ∀ f ∈ fs, f.hasServices = true →
      f.GoImportPath = r.GoImportPath ∧ f.Desc.Package = r.Desc.Package := by
  induction fs with
  | nil =>
    intro st st' h
    simp only [scan, Except.ok.injEq] at h
    subst h
    cases hst : st.file <;> simp [rootAfter, servicePaths, hst]
  | cons f fs ih =>
    intro st st' h
    simp only [scan] at h
    cases hstep : scanStep st f with
    | error e => rw [hstep] at h; cases h
    | ok st1 =>
      rw [hstep] at h
      simp only at h
      obtain ⟨h1, h2, h3, h4⟩ := ih st1 st' h
      rcases scanStep_ok hstep with ⟨hq, rfl⟩ | ⟨hq, hip, hpk, rfl⟩
      · refine ⟨?_, ?_, ?_, ?_⟩
        · rw [h1, rootAfter_cons_false hq]
        · rw [h2]; simp [servicePaths, hq]
        · rw [h3]; simp [hq]
        · intro r hr g hg hgq
          rcases List.mem_cons.1 hg with rfl | hg
          · rw [hq] at hgq; cases hgq
          · exact h4 r hr g hg hgq
      · simp only at h1 h2 h3
        refine ⟨?_, ?_, ?_, ?_⟩
        · rw [h1, rootAfter_cons_true hq]
        · rw [h2]; simp [servicePaths, hq]
        · rw [h3]; simp [hq]; omega
        · intro r hr g hg hgq
          rcases List.mem_cons.1 hg with rfl | hg
          · have hr' : some (st.file.getD g) = some r := by
              rw [← hr, h1]; rfl
            simp only [Option.some.injEq] at hr'
            rw [hr'] at hip hpk
            exact ⟨hip, hpk⟩
          · exact h4 r hr g hg hgq

/-- A run of the loop that fails: some service-declaring file differs from the root, and the
error names the root's identity first and that file's second. -/
theorem scan_error (fs : List File) : ∀ (st : ScanState) (e : GoError), scan st fs = .error e →
    ∃ r f, rootAfter st.file fs = some r ∧ f ∈ fs ∧ f.hasServices = true ∧
      ((f.GoImportPath ≠ r.GoImportPath ∧
          e = ⟨"package path conflict between %s and %s",
            [.importPath r.GoImportPath, .importPath f.GoImportPath]⟩) ∨
       (f.GoImportPath = r.GoImportPath ∧ f.Desc.Package ≠ r.Desc.Package ∧
          e = ⟨"package path conflict between %s and %s",
            [.fullName r.Desc.Package, .fullName f.Desc.Package]⟩)) := by
  induction fs with
  | nil => intro st e h; cases h
  | cons f fs ih =>
    intro st e h
    simp only [scan] at h
    cases hstep : scanStep st f with
    | error e1 =>
      rw [hstep] at h
      simp only at h
      cases h
      obtain ⟨hq, hcase⟩ := scanStep_error hstep
      refine ⟨st.file.getD f, f, ?_, List.mem_cons_self _ _, hq, hcase⟩
      rw [rootAfter_cons_true hq]; rfl
    | ok st1 =>
      rw [hstep] at h
      simp only at h
      obtain ⟨r, g, hr, hg, hgq, hcase⟩ := ih st1 e h
      refine ⟨r, g, ?_, List.mem_cons_of_mem _ hg, hgq, hcase⟩
      rcases scanStep_ok hstep with ⟨hq, rfl⟩ | ⟨hq, _, _, rfl⟩
      · rw [rootAfter_cons_false hq]; exact hr
      · rw [rootAfter_cons_true hq]; exact hr

/-! ## The sort -/

theorem sinkLeft_perm {α : Type} (less : α → α → Bool) (x : α) (ys : List α) :
    (sinkLeft less x ys).Perm (x :: ys) := by
  induction ys with
  | nil => exact List.Perm.refl _
  | cons y ys ih =>
    unfold sinkLeft
    by_cases h : less x y = true
    · rw [if_pos h]
      exact (List.Perm.cons y ih).trans (List.Perm.swap x y ys)
    · rw [if_neg h]

theorem insertionSortFrom_perm {α : Type} (less : α → α → Bool) (xs : List α) :
    ∀ done : List α, (insertionSortFrom less done xs).Perm (done ++ xs) := by
  induction xs with
  | nil => intro done; simp [insertionSortFrom]
  | cons x xs ih =>
    intro done
    unfold insertionSortFrom
    refine (ih (sinkLeft less x done)).trans ?_
    refine (List.Perm.append_right xs (sinkLeft_perm less x done)).trans ?_
    have hmid : (done ++ x :: xs).Perm (x :: (done ++ xs)) := List.perm_middle
    simpa using hmid.symm

/-- Insertion sort rearranges its input. -/
theorem insertionSort_permutes : SortPermutes insertionSort := by
  intro less xs
  simpa [insertionSort] using insertionSortFrom_perm less xs []

theorem genProviderModel_succeeds : ProviderSucceeds genProviderModel := by
  intro gen files root sources; rfl

theorem genProviderModel_keeps : ProviderKeeps genProviderModel := by
  intro gen files root sources u hu; exact hu

/-! ## `generateFiles`: lemmas -/

theorem generateFiles_of_scan_error {E : Env} {gen : Plugin} {files : List File} {e : GoError}
    (h : scan ⟨0, [], none⟩ (E.sortSlice lessByName files) = .error e) :
    generateFiles E gen files = (gen, some e) := by
  simp [generateFiles, h]

theorem generateFiles_of_scan_zero {E : Env} {gen : Plugin} {files : List File} {st : ScanState}
    (h : scan ⟨0, [], none⟩ (E.sortSlice lessByName files) = .ok st) (hc : st.count ≤ 0) :
    generateFiles E gen files = (gen, none) := by
  simp [generateFiles, h, hc]

theorem generateFiles_of_scan_pos {E : Env} {gen : Plugin} {files : List File} {st : ScanState}
    (h : scan ⟨0, [], none⟩ (E.sortSlice lessByName files) = .ok st) (hc : ¬ st.count ≤ 0) :
    generateFiles E gen files =
      E.genProvider
        ⟨gen.genFiles ++ [⟨"client.go", "client",
          genClientLines E (E.sortSlice lessByName files) (", ".intercalate st.paths)⟩]⟩
        (E.sortSlice lessByName files) st.file (", ".intercalate st.paths) := by
  simp [generateFiles, h, hc, genClient]

theorem count_pos_of_mem {fs : List File} {f : File} (hf : f ∈ fs) (hq : f.hasServices = true) :
    0 < ((fs.filter File.hasServices).map (fun f => f.Services.length)).sum := by
  have hmem : f.Services.length ∈ (fs.filter File.hasServices).map (fun f => f.Services.length) :=
    List.mem_map.2 ⟨f, List.mem_filter.2 ⟨hf, hq⟩, rfl⟩
  have hle := List.single_le_sum (fun _ _ => Nat.zero_le _) _ hmem
  have hpos : 0 < f.Services.length := by
    unfold File.hasServices at hq
    exact of_decide_eq_true hq
  omega

theorem find_hasServices_of_mem {fs : List File} {f : File} (hf : f ∈ fs)
    (hq : f.hasServices = true) :
    ∃ r, fs.find? File.hasServices = some r ∧ r ∈ fs ∧ r.hasServices = true := by
  cases hfind : fs.find? File.hasServices with
  | none =>
    have := List.find?_eq_none.1 hfind f hf
    exact absurd hq this
  | some r =>
    exact ⟨r, rfl, List.mem_of_find?_eq_some hfind, List.find?_some hfind⟩

/-- With a conflict in the list the loop fails. -/
theorem scan_error_of_conflict {fs : List File} (h : HasConflict fs) :
    ∃ e, scan ⟨0, [], none⟩ fs = .error e := by
  obtain ⟨f, hf, g, hg, hfq, hgq, hfg⟩ := h
  cases hscan : scan ⟨0, [], none⟩ fs with
  | error e => exact ⟨e, rfl⟩
  | ok st =>
    exfalso
    obtain ⟨h1, _, _, h4⟩ := scan_ok fs _ _ hscan
    obtain ⟨r, hr, _, _⟩ := find_hasServices_of_mem hf hfq
    have hroot : st.file = some r := by rw [h1]; exact hr
    obtain ⟨hf1, hf2⟩ := h4 r hroot f hf hfq
    obtain ⟨hg1, hg2⟩ := h4 r hroot g hg hgq
    rcases hfg with hne | hne
    · exact hne (hf1.trans hg1.symm)
    · exact hne (hf2.trans hg2.symm)

/-- When the loop fails the list has a conflict. -/
theorem conflict_of_scan_error {fs : List File} {e : GoError}
    (h : scan ⟨0, [], none⟩ fs = .error e) :
    HasConflict fs ∧ e.format = "package path conflict between %s and %s" := by
  obtain ⟨r, f, hr, hf, hfq, hcase⟩ := scan_error fs _ e h
  have hfind : fs.find? File.hasServices = some r := by simpa [rootAfter] using hr
  refine ⟨⟨f, hf, r, List.mem_of_find?_eq_some hfind, hfq, List.find?_some hfind, ?_⟩, ?_⟩
  · rcases hcase with ⟨hne, _⟩ | ⟨_, hne, _⟩
    · exact Or.inl hne
    · exact Or.inr hne
  · rcases hcase with ⟨_, rfl⟩ | ⟨_, _, rfl⟩ <;> rfl

theorem hasConflict_perm {fs gs : List File} (hp : fs.Perm gs) (h : HasConflict fs) :
    HasConflict gs := by
  obtain ⟨f, hf, g, hg, hrest⟩ := h
  exact ⟨f, hp.subset hf, g, hp.subset hg, hrest⟩

/-- With a conflict in the input `generateFiles` returns the error of the loop and the
plugin unchanged. -/
theorem generateFiles_conflict_no_output_aux {E : Env} (hsort : SortPermutes E.sortSlice)
    (gen : Plugin) {files : List File} (hconf : HasConflict files) :
    ∃ e, generateFiles E gen files = (gen, some e) ∧
      e.format = "package path conflict between %s and %s" := by
  obtain ⟨e, he⟩ := scan_error_of_conflict
    (hasConflict_perm (hsort lessByName files).symm hconf)
  exact ⟨e, generateFiles_of_scan_error he, (conflict_of_scan_error he).2⟩

/-! ## `generateFiles`: the validation -/

/-- C1. Provided `sort.Slice` rearranges the slice and `genProvider` does not fail,
`generateFiles` returns an error if and only if the input has two files that each declare a
service and differ in Go import path or in proto package (files without services play no
part); and for any service-declaring file taken as the root, every service-declaring file
agreeing with the root is the same as all service-declaring files agreeing pairwise. -/
theorem generateFiles_error_iff_conflict (E : Env) (hsort : SortPermutes E.sortSlice)
    (hprov : ProviderSucceeds E.genProvider) (gen : Plugin) (files : List File) :
    ((generateFiles E gen files).2 ≠ none ↔ HasConflict files) ∧
    (∀ r ∈ files, r.hasServices = true →
      ((∀ f ∈ files, f.hasServices = true → ¬ f.conflictsWith r) ↔ ¬ HasConflict files)) := by
  constructor
  · constructor
    · intro herr
      cases hscan : scan ⟨0, [], none⟩ (E.sortSlice lessByName files) with
      | error e =>
        exact hasConflict_perm (hsort lessByName files) (conflict_of_scan_error hscan).1
      | ok st =>
        exfalso
        by_cases hc : st.count ≤ 0
        · rw [generateFiles_of_scan_zero hscan hc] at herr
          exact herr rfl
        · rw [generateFiles_of_scan_pos hscan hc] at herr
          exact herr (hprov _ _ _ _)
    · intro hconf
      obtain ⟨e, he⟩ := scan_error_of_conflict
        (hasConflict_perm (hsort lessByName files).symm hconf)
      rw [generateFiles_of_scan_error he]
      simp
  · intro r hr hrq
    constructor
    · rintro hall ⟨f, hf, g, hg, hfq, hgq, hfg⟩
      have h1 := hall f hf hfq
      have h2 := hall g hg hgq
      unfold File.conflictsWith at h1 h2 hfg
      rw [not_or, not_not, not_not] at h1 h2
      rcases hfg with hne | hne
      · exact hne (h1.1.trans h2.1.symm)
      · exact hne (h1.2.trans h2.2.symm)
    · intro hno f hf hfq hfr
      exact hno ⟨f, hf, r, hr, hfq, hrq, hfr⟩

/-- C1, at a concrete input: the files with import paths `a/b` and `a/c`. -/
theorem generateFiles_error_iff_conflict_witness :
    SortPermutes envInsertion.sortSlice ∧ ProviderSucceeds envInsertion.genProvider ∧
    (((generateFiles envInsertion ⟨[]⟩ [leftFile, rightFile]).2 ≠ none ↔
        HasConflict [leftFile, rightFile]) ∧
      (∀ r ∈ [leftFile, rightFile], r.hasServices = true →
        ((∀ f ∈ [leftFile, rightFile], f.hasServices = true → ¬ f.conflictsWith r) ↔
          ¬ HasConflict [leftFile, rightFile]))) :=
  ⟨insertionSort_permutes, genProviderModel_succeeds,
    generateFiles_error_iff_conflict envInsertion insertionSort_permutes
      genProviderModel_succeeds ⟨[]⟩ [leftFile, rightFile]⟩

/-- C2. Provided `sort.Slice` rearranges the slice: when the input has two service-declaring
files that differ in import path or package, `generateFiles` returns the conflict error and
the plugin is as it was before the call: no output file was created and no line printed. -/
theorem generateFiles_conflict_no_output (E : Env) (hsort : SortPermutes E.sortSlice)
    (gen : Plugin) (files : List File) (hconf : HasConflict files) :
    ∃ e, generateFiles E gen files = (gen, some e) ∧
      e.format = "package path conflict between %s and %s" := by
  exact generateFiles_conflict_no_output_aux hsort gen hconf

/-- C2, at the input of the specification: import paths `a/b` and `a/c`, same package. -/
theorem generateFiles_conflict_no_output_witness :
    SortPermutes envInsertion.sortSlice ∧ HasConflict [leftFile, rightFile] ∧
    ∃ e, generateFiles envInsertion ⟨[]⟩ [leftFile, rightFile] = (⟨[]⟩, some e) ∧
      e.format = "package path conflict between %s and %s" :=
  have hconf : HasConflict [leftFile, rightFile] :=
    ⟨leftFile, by simp, rightFile, by simp, by decide, by decide, by decide⟩
  ⟨insertionSort_permutes, hconf,
    generateFiles_conflict_no_output envInsertion insertionSort_permutes ⟨[]⟩ _ hconf⟩

/-- C3. Provided `sort.Slice` rearranges the slice: when no file of the input declares a
service (the empty input included), `generateFiles` returns no error and leaves the plugin
as it was, whatever the import paths and packages of the files. -/
theorem generateFiles_no_services (E : Env) (hsort : SortPermutes E.sortSlice)
    (gen : Plugin) (files : List File) (hnone : ∀ f ∈ files, f.Services = []) :
    generateFiles E gen files = (gen, none) := by
  have hq : ∀ f ∈ E.sortSlice lessByName files, f.hasServices = false := by
    intro f hf
    have := hnone f ((hsort lessByName files).subset hf)
    simp [File.hasServices, this]
  cases hscan : scan ⟨0, [], none⟩ (E.sortSlice lessByName files) with
  | error e =>
    obtain ⟨_, f, _, hf, hfq, _⟩ := scan_error _ _ e hscan
    rw [hq f hf] at hfq
    cases hfq
  | ok st =>
    obtain ⟨_, _, h3, _⟩ := scan_ok _ _ _ hscan
    have hfil : (E.sortSlice lessByName files).filter File.hasServices = [] := by
      rw [List.filter_eq_nil_iff]
      intro f hf
      simp [hq f hf]
    rw [hfil] at h3
    exact generateFiles_of_scan_zero hscan (by simp at h3; omega)

/-- C3, at a concrete input: two files without services, of different packages. -/
theorem generateFiles_no_services_witness :
    SortPermutes envInsertion.sortSlice ∧
    (∀ f ∈ [otherPackageFile, plainFile "c.proto"], f.Services = []) ∧
    generateFiles envInsertion ⟨[]⟩ [otherPackageFile, plainFile "c.proto"] = (⟨[]⟩, none) :=
  have hnone : ∀ f ∈ [otherPackageFile, plainFile "c.proto"], f.Services = [] := by
    intro f hf
    simp only [List.mem_cons, List.mem_singleton, List.not_mem_nil, or_false] at hf
    rcases hf with rfl | rfl <;> rfl
  ⟨insertionSort_permutes, hnone,
    generateFiles_no_services envInsertion insertionSort_permutes ⟨[]⟩ _ hnone⟩

/-! ## `generateFiles`: the order of the files -/

theorem runesLess_irrefl (cs : List Char) : runesLess cs cs = false := by
  induction cs with
  | nil => rfl
  | cons c cs ih => simp [runesLess, ih]

/-- Files of the same proto package have the same sort key: neither is `less` than the other. -/
theorem lessByName_same_package {f g : File} (h : f.Desc.Package = g.Desc.Package) :
    lessByName f g = false := by
  unfold lessByName stringLess FileDesc.Name
  rw [h]
  exact runesLess_irrefl _

/-- In an input without conflict all service-declaring files have the same sort key. -/
theorem lessByName_false_of_no_conflict {files : List File} (hno : ¬ HasConflict files)
    {f g : File} (hf : f ∈ files) (hg : g ∈ files) (hfq : f.hasServices = true)
    (hgq : g.hasServices = true) : lessByName f g = false := by
  apply lessByName_same_package
  by_contra hne
  exact hno ⟨f, hf, g, hg, hfq, hgq, Or.inr hne⟩

/-- C7. Evaluation at the failing input: for the two orders of `a.proto` and `b.proto` (same
package and import path, one service each) `generateFiles` succeeds, with either sort, and
the interface bodies it emits differ: each lists the services in the order of the input. -/
theorem interface_body_depends_on_enumeration_order :
    [betaFile, alphaFile].Perm [alphaFile, betaFile] ∧
    generateFiles envInsertion ⟨[]⟩ [alphaFile, betaFile] =
      (⟨[⟨"client.go", "client",
          genClientLines envInsertion [alphaFile, betaFile] "a.proto, b.proto"⟩]⟩, none) ∧
    generateFiles envInsertion ⟨[]⟩ [betaFile, alphaFile] =
      (⟨[⟨"client.go", "client",
          genClientLines envInsertion [betaFile, alphaFile] "b.proto, a.proto"⟩]⟩, none) ∧
    generateFiles envQuick ⟨[]⟩ [alphaFile, betaFile] =
      generateFiles envInsertion ⟨[]⟩ [alphaFile, betaFile] ∧
    generateFiles envQuick ⟨[]⟩ [betaFile, alphaFile] =
      generateFiles envInsertion ⟨[]⟩ [betaFile, alphaFile] ∧
    interfaceBody [alphaFile, betaFile] ≠ interfaceBody [betaFile, alphaFile] := by
  refine ⟨List.Perm.swap _ _ _, ?_, ?_, ?_, ?_, ?_⟩ <;> decide

/-- C8. Evaluation at the failing input: given `b.proto` before `a.proto`, the list handed
to the emitters keeps `b.proto` first although `a.proto` is the smaller path, and the
interface body lists the service of `b.proto` first. -/
theorem emitter_files_not_in_path_order :
    stringLess alphaFile.Desc.Path betaFile.Desc.Path = true ∧
    envInsertion.sortSlice lessByName [betaFile, alphaFile] = [betaFile, alphaFile] ∧
    envQuick.sortSlice lessByName [betaFile, alphaFile] = [betaFile, alphaFile] ∧
    interfaceBody (envInsertion.sortSlice lessByName [betaFile, alphaFile]) =
      [ [.str "// ", .str "Beta", .str " ", .str "b.proto"],
        [.str "Beta", .str "() ", .ident ⟨"BetaClient", "x/p"⟩],
        [.str "// ", .str "Alpha", .str " ", .str "a.proto"],
        [.str "Alpha", .str "() ", .ident ⟨"AlphaClient", "x/p"⟩] ] := by
  refine ⟨?_, ?_, ?_, ?_⟩ <;> decide

/-! ## `generateFiles`: the provenance -/

/-- What a run without conflict and with a service comes to: `genClient` and then
`genProvider` are called with the rearranged list, its first service-declaring file and the
joined paths of its service-declaring files. -/
theorem generateFiles_of_no_conflict {E : Env} (hsort : SortPermutes E.sortSlice)
    (gen : Plugin) {files : List File} (hno : ¬ HasConflict files)
    (hsvc : ∃ f ∈ files, f.hasServices = true) :
    generateFiles E gen files =
      E.genProvider
        ⟨gen.genFiles ++ [⟨"client.go", "client",
          genClientLines E (E.sortSlice lessByName files)
            (", ".intercalate (servicePaths (E.sortSlice lessByName files)))⟩]⟩
        (E.sortSlice lessByName files)
        ((E.sortSlice lessByName files).find? File.hasServices)
        (", ".intercalate (servicePaths (E.sortSlice lessByName files))) := by
  obtain ⟨f, hf, hfq⟩ := hsvc
  have hperm := hsort lessByName files
  cases hscan : scan ⟨0, [], none⟩ (E.sortSlice lessByName files) with
  | error e =>
    exact absurd (hasConflict_perm hperm (conflict_of_scan_error hscan).1) hno
  | ok st =>
    obtain ⟨h1, h2, h3, _⟩ := scan_ok _ _ _ hscan
    have hpos := count_pos_of_mem (hperm.symm.subset hf) hfq
    have hc : ¬ st.count ≤ 0 := by simp only [Nat.zero_add] at h3; omega
    rw [generateFiles_of_scan_pos hscan hc, h1, h2]
    rfl

/-- C9. Provided `sort.Slice` rearranges the slice and `genProvider` keeps the output files
it finds: when `generateFiles` succeeds on an input with a service, the output file
`client.go` has the header line `// Sources: ` followed by the comma-joined list of a
rearrangement of the descriptor paths of the service-declaring files: one entry for each
such file, and none for a file without services. -/
theorem generateFiles_sources_complete (E : Env) (hsort : SortPermutes E.sortSlice)
    (hkeep : ProviderKeeps E.genProvider) (gen : Plugin) (files : List File)
    (hok : (generateFiles E gen files).2 = none)
    (hsvc : ∃ f ∈ files, f.hasServices = true) :
    ∃ paths : List String, paths.Perm (servicePaths files) ∧
      ∃ u ∈ (generateFiles E gen files).1.genFiles, u.filename = "client.go" ∧
        u.buf[1]? = some [.str "// Sources: ", .str (", ".intercalate paths)] := by
  have hno : ¬ HasConflict files := by
    intro hconf
    obtain ⟨e, he, _⟩ := generateFiles_conflict_no_output_aux hsort gen hconf
    rw [he] at hok
    cases hok
  refine ⟨servicePaths (E.sortSlice lessByName files),
    ((hsort lessByName files).filter _).map _, ?_⟩
  rw [generateFiles_of_no_conflict hsort gen hno hsvc]
  refine ⟨_, hkeep _ _ _ _ _ (List.mem_append_right _ (List.mem_singleton_self _)), rfl, rfl⟩

/-- C9, at a concrete input: `b.proto`, a file without services, and `a.proto`. -/
theorem generateFiles_sources_complete_witness :
    SortPermutes envInsertion.sortSlice ∧ ProviderKeeps envInsertion.genProvider ∧
    (generateFiles envInsertion ⟨[]⟩ [betaFile, plainFile "c.proto", alphaFile]).2 = none ∧
    (∃ f ∈ [betaFile, plainFile "c.proto", alphaFile], f.hasServices = true) ∧
    ∃ paths : List String,
      paths.Perm (servicePaths [betaFile, plainFile "c.proto", alphaFile]) ∧
      ∃ u ∈ (generateFiles envInsertion ⟨[]⟩ [betaFile, plainFile "c.proto", alphaFile]).1.genFiles,
        u.filename = "client.go" ∧
        u.buf[1]? = some [.str "// Sources: ", .str (", ".intercalate paths)] :=
  have hok : (generateFiles envInsertion ⟨[]⟩
      [betaFile, plainFile "c.proto", alphaFile]).2 = none := by decide
  have hsvc : ∃ f ∈ [betaFile, plainFile "c.proto", alphaFile], f.hasServices = true :=
    ⟨betaFile, by simp, by decide⟩
  ⟨insertionSort_permutes, genProviderModel_keeps, hok, hsvc,
    generateFiles_sources_complete envInsertion insertionSort_permutes genProviderModel_keeps
      ⟨[]⟩ _ hok hsvc⟩

/-- C10, as stated, fails: with the sort that Go up to 1.18 runs on short slices, on seven
files of which `a.proto` and `b.proto`, in this order, declare services, the rearranged list
(a rearrangement of the input, ordered by the `less` of line 34) has `b.proto` before
`a.proto`; `generateFiles` succeeds and writes the provenance `b.proto, a.proto`, while the
service-declaring files in the order of the input give `a.proto, b.proto`. -/
theorem sources_not_in_enumeration_order :
    servicePaths sevenFiles = ["a.proto", "b.proto"] ∧
    ¬ HasConflict sevenFiles ∧
    envQuick.sortSlice lessByName sevenFiles =
      [betaFile, alphaFile, plainFile "c.proto", plainFile "d.proto", plainFile "e.proto",
       plainFile "f.proto", otherPackageFile] ∧
    (envQuick.sortSlice lessByName sevenFiles).Perm sevenFiles ∧
    (envQuick.sortSlice lessByName sevenFiles).Pairwise (fun a b => lessByName b a = false) ∧
    generateFiles envQuick ⟨[]⟩ sevenFiles =
      (⟨[⟨"client.go", "client",
          genClientLines envQuick (envQuick.sortSlice lessByName sevenFiles)
            "b.proto, a.proto"⟩]⟩,
        none) ∧
    ", ".intercalate (servicePaths sevenFiles) ≠ "b.proto, a.proto" := by
  refine ⟨?_, ?_, ?_, ?_, ?_, ?_, ?_⟩
  · decide
  · rintro ⟨f, hf, g, hg, hfq, hgq, hfg⟩
    revert f g
    decide
  · decide
  · decide
  · decide
  · decide
  · decide

/-- C10, amended. Provided `sort.Slice` rearranges the slice: on an input without conflict
and with a service, the provenance string that `generateFiles` hands to `genClient` and to
`genProvider` is the comma-joined list of the descriptor paths of the service-declaring
files in the order of the rearranged list, which is the list given to `genClient` for the
interface body. -/
theorem generateFiles_sources_in_sorted_order (E : Env) (hsort : SortPermutes E.sortSlice)
    (gen : Plugin) (files : List File) (hno : ¬ HasConflict files)
    (hsvc : ∃ f ∈ files, f.hasServices = true) :
    ∃ sorted sources, sorted = E.sortSlice lessByName files ∧
      sources = ", ".intercalate ((sorted.filter File.hasServices).map (fun f => f.Desc.Path)) ∧
      generateFiles E gen files =
        E.genProvider (genClient E gen sorted (sorted.find? File.hasServices) sources).1
          sorted (sorted.find? File.hasServices) sources := by
  exact ⟨_, _, rfl, rfl, generateFiles_of_no_conflict hsort gen hno hsvc⟩

/-- C10, amended, at a concrete input: `b.proto` before `a.proto`. -/
theorem generateFiles_sources_in_sorted_order_witness :
    SortPermutes envInsertion.sortSlice ∧ ¬ HasConflict [betaFile, alphaFile] ∧
    (∃ f ∈ [betaFile, alphaFile], f.hasServices = true) ∧
    ∃ sorted sources, sorted = envInsertion.sortSlice lessByName [betaFile, alphaFile] ∧
      sources = ", ".intercalate ((sorted.filter File.hasServices).map (fun f => f.Desc.Path)) ∧
      generateFiles envInsertion ⟨[]⟩ [betaFile, alphaFile] =
        envInsertion.genProvider
          (genClient envInsertion ⟨[]⟩ sorted (sorted.find? File.hasServices) sources).1
          sorted (sorted.find? File.hasServices) sources :=
  have hno : ¬ HasConflict [betaFile, alphaFile] := by
    rintro ⟨f, hf, g, hg, hfq, hgq, hfg⟩
    revert f g
    decide
  have hsvc : ∃ f ∈ [betaFile, alphaFile], f.hasServices = true :=
    ⟨betaFile, by simp, by decide⟩
  ⟨insertionSort_permutes, hno, hsvc,
    generateFiles_sources_in_sorted_order envInsertion insertionSort_permutes ⟨[]⟩ _ hno hsvc⟩

/-! ## `lowerCaptain` -/

theorem utf8ByteSize_go_pos (c : Char) (cs : List Char) :
    0 < String.utf8ByteSize.go (c :: cs) := by
  have := Char.utf8Size_pos c
  simp only [String.utf8ByteSize.go]
  omega

/-- On the empty identifier `lowerCaptain` returns its argument. -/
theorem lowerCaptain_nil (U : Unicode) (s : String) (h : s.data = []) :
    lowerCaptain U s = s := by
  unfold lowerCaptain
  split
  · rfl
  · rw [h]

/-- On a non-empty identifier the length test of `lowerCaptain` fails, and what is left is
the test of the first rune and the loop. -/
theorem lowerCaptain_cons (U : Unicode) (s : String) (c : Char) (cs : List Char)
    (h : s.data = c :: cs) :
    lowerCaptain U s = if U.IsLower c then s else String.mk (lowerLoop U c (c :: cs)) := by
  have hlen : ¬ s.utf8ByteSize ≤ 0 := by
    have hpos := utf8ByteSize_go_pos c cs
    have hsz : s.utf8ByteSize = String.utf8ByteSize.go (c :: cs) := by
      cases s with
      | mk d => simp only at h; subst h; rfl
    omega
  unfold lowerCaptain
  rw [if_neg hlen, h]

/-- The loop lower-cases the leading run of runes of the class of `pre` and keeps the rest. -/
theorem lowerLoop_eq (U : Unicode) (pre : Char) (cs : List Char) :
    lowerLoop U pre cs =
      (cs.takeWhile (fun c => U.IsUpper c == U.IsUpper pre)).map U.ToLower ++
        cs.drop (cs.takeWhile (fun c => U.IsUpper c == U.IsUpper pre)).length := by
  induction cs with
  | nil => rfl
  | cons c cs ih =>
    unfold lowerLoop
    by_cases h : U.IsUpper c = U.IsUpper pre
    · simp [h, ih]
    · simp [h]

/-- Tables that agree on the runes of an identifier give the same result. -/
theorem lowerLoop_congr (U V : Unicode) (pre : Char) (hpre : U.IsUpper pre = V.IsUpper pre)
    (cs : List Char)
    (h : ∀ c ∈ cs, U.IsUpper c = V.IsUpper c ∧ U.IsLower c = V.IsLower c ∧
      U.ToLower c = V.ToLower c) :
    lowerLoop U pre cs = lowerLoop V pre cs := by
  induction cs with
  | nil => rfl
  | cons c cs ih =>
    obtain ⟨h1, _, h3⟩ := h c (List.mem_cons_self _ _)
    unfold lowerLoop
    rw [h1, hpre, h3, ih (fun d hd => h d (List.mem_cons_of_mem _ hd))]

theorem lowerCaptain_congr (U V : Unicode) (s : String)
    (h : ∀ c ∈ s.data, U.IsUpper c = V.IsUpper c ∧ U.IsLower c = V.IsLower c ∧
      U.ToLower c = V.ToLower c) :
    lowerCaptain U s = lowerCaptain V s := by
  cases hd : s.data with
  | nil => rw [lowerCaptain_nil U s hd, lowerCaptain_nil V s hd]
  | cons c cs =>
    rw [hd] at h
    obtain ⟨h1, h2, _⟩ := h c (List.mem_cons_self _ _)
    rw [lowerCaptain_cons U s c cs hd, lowerCaptain_cons V s c cs hd, h2,
      lowerLoop_congr U V c h1 (c :: cs) h]

theorem unicodeExcerpt_goASCII : GoASCII unicodeExcerpt := by
  intro c hc
  simp [unicodeExcerpt, hc]

/-- On an identifier of ASCII runes, tables that agree with Go on ASCII give what the
excerpt table gives. -/
theorem lowerCaptain_ascii (U : Unicode) (hU : GoASCII U) (s : String)
    (hs : ∀ c ∈ s.data, c.toNat < 128) :
    lowerCaptain U s = lowerCaptain unicodeExcerpt s := by
  apply lowerCaptain_congr
  intro c hc
  obtain ⟨h1, h2, h3⟩ := hU c (hs c hc)
  obtain ⟨k1, k2, k3⟩ := unicodeExcerpt_goASCII c (hs c hc)
  exact ⟨h1.trans k1.symm, h2.trans k2.symm, h3.trans k3.symm⟩

/-- C4, as stated, fails at `HTTPServer`: the leading run `HTTPS` is lower-cased as a whole,
so the result is `httpserver` and not `httpServer`. -/
theorem lowerCaptain_HTTPServer :
    lowerCaptain unicodeExcerpt "HTTPServer" = "httpserver" ∧
    lowerCaptain unicodeExcerpt "HTTPServer" ≠ "httpServer" := by
  constructor <;> decide

/-- C4, amended. With tables that agree with Go's `unicode` on ASCII, `lowerCaptain` maps
`FooBar` to `fooBar`, `HTTPServer` to `httpserver`, `ABC` to `abc`, `x` to `x` and the empty
identifier to itself. -/
theorem lowerCaptain_table (U : Unicode) (hU : GoASCII U) :
    lowerCaptain U "FooBar" = "fooBar" ∧
    lowerCaptain U "HTTPServer" = "httpserver" ∧
    lowerCaptain U "ABC" = "abc" ∧
    lowerCaptain U "x" = "x" ∧
    lowerCaptain U "" = "" := by
  refine ⟨?_, ?_, ?_, ?_, ?_⟩
  · rw [lowerCaptain_ascii U hU "FooBar" (by decide)]; decide
  · rw [lowerCaptain_ascii U hU "HTTPServer" (by decide)]; decide
  · rw [lowerCaptain_ascii U hU "ABC" (by decide)]; decide
  · rw [lowerCaptain_ascii U hU "x" (by decide)]; decide
  · rw [lowerCaptain_ascii U hU "" (by decide)]; decide

/-- C4, amended, at the excerpt of Go's tables. -/
theorem lowerCaptain_table_witness :
    GoASCII unicodeExcerpt ∧
    (lowerCaptain unicodeExcerpt "FooBar" = "fooBar" ∧
     lowerCaptain unicodeExcerpt "HTTPServer" = "httpserver" ∧
     lowerCaptain unicodeExcerpt "ABC" = "abc" ∧
     lowerCaptain unicodeExcerpt "x" = "x" ∧
     lowerCaptain unicodeExcerpt "" = "") :=
  ⟨unicodeExcerpt_goASCII, lowerCaptain_table unicodeExcerpt unicodeExcerpt_goASCII⟩

/-- C5, as stated, fails at the identifier `a` followed by U+01C5: its first rune is lower
case, so `lowerCaptain` returns it unchanged, while the reference definition lower-cases the
title-case rune U+01C5, which is in the leading run of runes that are not upper case. -/
theorem lowerCaptain_ne_reference :
    lowerCaptain unicodeExcerpt lowerThenTitle = String.mk ['a', Char.ofNat 0x1C5] ∧
    lowerCaptainRef unicodeExcerpt lowerThenTitle = String.mk ['a', Char.ofNat 0x1C6] ∧
    lowerCaptain unicodeExcerpt lowerThenTitle ≠ lowerCaptainRef unicodeExcerpt lowerThenTitle := by
  refine ⟨?_, ?_, ?_⟩ <;> decide

/-- The two cases of `lowerCaptain`: the early return on a lower-case first rune, and
otherwise the loop, which computes the reference definition. -/
theorem lowerCaptain_by_first_rune (U : Unicode) (s : String) :
    lowerCaptain U s = if startsLower U s = true then s else lowerCaptainRef U s := by
  cases hd : s.data with
  | nil =>
    have hs : s = String.mk [] := by
      cases s with
      | mk d => simp only at hd; rw [hd]
    simp [lowerCaptain_nil U s hd, startsLower, lowerCaptainRef, leadingRun, hd, ← hs]
  | cons c cs =>
    rw [lowerCaptain_cons U s c cs hd]
    by_cases hl : U.IsLower c = true
    · simp [startsLower, hd, hl]
    · have hsl : ¬ (startsLower U s = true) := by simp [startsLower, hd, hl]
      rw [if_neg hl, if_neg hsl, lowerLoop_eq]
      simp only [lowerCaptainRef, leadingRun, hd]

/-- C5, amended. For every identifier, `lowerCaptain` returns the identifier itself when its
first rune is lower case, and otherwise the value of the reference definition: the leading
run of runes of the upper-case class of the first rune, each replaced by its lower-case
form, followed by the rest unchanged. -/
theorem lowerCaptain_eq_reference (U : Unicode) (s : String) :
    lowerCaptain U s = if startsLower U s = true then s else lowerCaptainRef U s :=
  lowerCaptain_by_first_rune U s

theorem takeWhile_append_drop {α : Type} (p : α → Bool) (l : List α) :
    l.takeWhile p ++ l.drop (l.takeWhile p).length = l := by
  induction l with
  | nil => rfl
  | cons a l ih =>
    by_cases h : p a = true
    · simp [List.takeWhile_cons, h, ih]
    · simp [List.takeWhile_cons, h]

/-- On ASCII identifiers the early return changes nothing: with tables that agree with Go on
ASCII, `lowerCaptain` and the reference definition coincide on every identifier of ASCII
runes. -/
theorem lowerCaptain_eq_reference_ascii (U : Unicode) (hU : GoASCII U) (s : String)
    (hs : ∀ c ∈ s.data, c.toNat < 128) : lowerCaptain U s = lowerCaptainRef U s := by
  rw [lowerCaptain_by_first_rune]
  by_cases hl : startsLower U s = true
  · rw [if_pos hl]
    cases hd : s.data with
    | nil => simp [startsLower, hd] at hl
    | cons c0 cs =>
      have hc0 : U.IsLower c0 = true := by simpa [startsLower, hd] using hl
      obtain ⟨h1, h2, _⟩ := hU c0 (hs c0 (by rw [hd]; exact List.mem_cons_self _ _))
      have hlow : 97 ≤ c0.toNat ∧ c0.toNat ≤ 122 := of_decide_eq_true (h2 ▸ hc0)
      have hup0 : U.IsUpper c0 = false := by
        rw [h1]; exact decide_eq_false (by omega)
      have hmap : ∀ c ∈ (c0 :: cs).takeWhile (fun c => U.IsUpper c == U.IsUpper c0),
          U.ToLower c = c := by
        intro c hc
        have hmem : c ∈ c0 :: cs := List.takeWhile_subset _ hc
        have hp := List.mem_takeWhile_imp hc
        obtain ⟨k1, _, k3⟩ := hU c (hs c (by rw [hd]; exact hmem))
        rw [hup0] at hp
        have hcu : U.IsUpper c = false := by simpa using hp
        rw [k1] at hcu
        have hnot : ¬ (65 ≤ c.toNat ∧ c.toNat ≤ 90) := of_decide_eq_false hcu
        rw [k3, if_neg hnot]
      have hrun : ((c0 :: cs).takeWhile (fun c => U.IsUpper c == U.IsUpper c0)).map U.ToLower =
          (c0 :: cs).takeWhile (fun c => U.IsUpper c == U.IsUpper c0) := by
        conv_rhs => rw [← List.map_id ((c0 :: cs).takeWhile _)]
        exact List.map_congr_left hmap
      have hs' : s = String.mk (c0 :: cs) := by
        cases s with
        | mk d => simp only at hd; rw [hd]
      simp only [lowerCaptainRef, leadingRun, hd]
      rw [hrun, takeWhile_append_drop, hs']
  · rw [if_neg hl]

/-- C6, as stated, fails at the identifier U+2102: the rune is an upper-case letter without
a lower-case mapping, and `lowerCaptain` returns the identifier with its first rune still
upper case. -/
theorem lowerCaptain_keeps_upper :
    doubleStruckC.data.head?.map unicodeExcerpt.IsUpper = some true ∧
    lowerCaptain unicodeExcerpt doubleStruckC = doubleStruckC ∧
    (lowerCaptain unicodeExcerpt doubleStruckC).data.head?.map unicodeExcerpt.IsUpper =
      some true := by
  refine ⟨?_, ?_, ?_⟩ <;> decide

theorem toNat_ofNat_small (n : Nat) (h : n < 0xd800) : (Char.ofNat n).toNat = n := by
  have hv : n.isValidChar := Or.inl h
  unfold Char.ofNat
  rw [dif_pos hv]
  simp [Char.ofNatAux, Char.toNat, UInt32.toNat]

/-- Every ASCII capital letter meets the conditions of the amended C6: with tables that
agree with Go on ASCII it is not lower case, and its lower-case form is not upper case. -/
theorem ascii_capital_lowers (U : Unicode) (hU : GoASCII U) (c : Char) (hc : c.toNat < 128)
    (hup : U.IsUpper c = true) :
    U.IsLower c = false ∧ U.IsUpper (U.ToLower c) = false := by
  obtain ⟨h1, h2, h3⟩ := hU c hc
  rw [h1] at hup
  have hrange : 65 ≤ c.toNat ∧ c.toNat ≤ 90 := of_decide_eq_true hup
  have hval : (Char.ofNat (c.toNat + 32)).toNat = c.toNat + 32 :=
    toNat_ofNat_small _ (by omega)
  constructor
  · rw [h2]; exact decide_eq_false (by omega)
  · rw [h3, if_pos hrange]
    obtain ⟨k1, _, _⟩ := hU (Char.ofNat (c.toNat + 32)) (by omega)
    rw [k1]
    exact decide_eq_false (by omega)

/-- C6, amended. For every non-empty identifier whose first rune is upper case (and not
lower case) and has a lower-case form that is not upper case, as every ASCII capital has,
`lowerCaptain` returns an identifier whose first rune is that lower-case form, which is not
upper case. -/
theorem lowerCaptain_first_not_upper (U : Unicode) (s : String) (c : Char) (cs : List Char)
    (hs : s.data = c :: cs) (_hup : U.IsUpper c = true) (hlow : U.IsLower c = false)
    (hmap : U.IsUpper (U.ToLower c) = false) :
    ∃ d rest, (lowerCaptain U s).data = d :: rest ∧ d = U.ToLower c ∧
      U.IsUpper d = false := by
  rw [lowerCaptain_cons U s c cs hs]
  refine ⟨U.ToLower c, lowerLoop U c cs, ?_, rfl, hmap⟩
  simp [hlow, lowerLoop]

/-- C6, amended, at the identifier `FooBar`. -/
theorem lowerCaptain_first_not_upper_witness :
    "FooBar".data = 'F' :: "ooBar".data ∧ unicodeExcerpt.IsUpper 'F' = true ∧
    unicodeExcerpt.IsLower 'F' = false ∧
    unicodeExcerpt.IsUpper (unicodeExcerpt.ToLower 'F') = false ∧
    ∃ d rest, (lowerCaptain unicodeExcerpt "FooBar").data = d :: rest ∧
      d = unicodeExcerpt.ToLower 'F' ∧ unicodeExcerpt.IsUpper d = false :=
  ⟨rfl, by decide, by decide, by decide,
    lowerCaptain_first_not_upper unicodeExcerpt "FooBar" 'F' "ooBar".data rfl
      (by decide) (by decide) (by decide)⟩

/-! ## `generateFiles`: the root -/

/-- A run of the loop that fails, in full: the file that makes it fail is the first
service-declaring file that differs from the root, and the error names the root's identity
first and that file's second. -/
theorem scan_error_first (fs : List File) : ∀ (st : ScanState) (e : GoError),
    scan st fs = .error e →
    ∃ r f pre post, rootAfter st.file fs = some r ∧ fs = pre ++ f :: post ∧
      (∀ g ∈ pre, g.hasServices = true →
        g.GoImportPath = r.GoImportPath ∧ g.Desc.Package = r.Desc.Package) ∧
      f.hasServices = true ∧
      ((f.GoImportPath ≠ r.GoImportPath ∧
          e = ⟨"package path conflict between %s and %s",
            [.importPath r.GoImportPath, .importPath f.GoImportPath]⟩) ∨
       (f.GoImportPath = r.GoImportPath ∧ f.Desc.Package ≠ r.Desc.Package ∧
          e = ⟨"package path conflict between %s and %s",
            [.fullName r.Desc.Package, .fullName f.Desc.Package]⟩)) := by
  induction fs with
  | nil => intro st e h; cases h
  | cons f fs ih =>
    intro st e h
    simp only [scan] at h
    cases hstep : scanStep st f with
    | error e1 =>
      rw [hstep] at h
      simp only at h
      cases h
      obtain ⟨hq, hcase⟩ := scanStep_error hstep
      refine ⟨st.file.getD f, f, [], fs, ?_, rfl, ?_, hq, hcase⟩
      · rw [rootAfter_cons_true hq]; rfl
      · intro g hg; cases hg
    | ok st1 =>
      rw [hstep] at h
      simp only at h
      obtain ⟨r, g, pre, post, hr, hfs, hpre, hgq, hcase⟩ := ih st1 e h
      rcases scanStep_ok hstep with ⟨hq, rfl⟩ | ⟨hq, hip, hpk, rfl⟩
      · refine ⟨r, g, f :: pre, post, ?_, by rw [hfs]; rfl, ?_, hgq, hcase⟩
        · rw [rootAfter_cons_false hq]; exact hr
        · intro x hx hxq
          rcases List.mem_cons.1 hx with rfl | hx
          · rw [hq] at hxq; cases hxq
          · exact hpre x hx hxq
      · have hr' : r = st.file.getD f := by
          have : some (st.file.getD f) = some r := hr
          exact (Option.some.inj this).symm
        refine ⟨r, g, f :: pre, post, ?_, by rw [hfs]; rfl, ?_, hgq, hcase⟩
        · rw [rootAfter_cons_true hq]; exact hr
        · intro x hx hxq
          rcases List.mem_cons.1 hx with rfl | hx
          · rw [hr']; exact ⟨hip, hpk⟩
          · exact hpre x hx hxq

/-- C11, as stated, fails: given a file of package `b` before a file of package `a`, each
with a service, the sort puts the file of package `a` first; it becomes the root, and the
error names its import path `x/a` first, while the first service-declaring file of the
input is the one with import path `x/b`, which the error names second. -/
theorem root_not_first_of_input :
    [packageBFile, packageAFile].find? File.hasServices = some packageBFile ∧
    packageBFile.GoImportPath = "x/b" ∧
    envInsertion.sortSlice lessByName [packageBFile, packageAFile] =
      [packageAFile, packageBFile] ∧
    envQuick.sortSlice lessByName [packageBFile, packageAFile] =
      [packageAFile, packageBFile] ∧
    generateFiles envInsertion ⟨[]⟩ [packageBFile, packageAFile] =
      (⟨[]⟩, some ⟨"package path conflict between %s and %s",
        [.importPath "x/a", .importPath "x/b"]⟩) ∧
    generateFiles envQuick ⟨[]⟩ [packageBFile, packageAFile] =
      (⟨[]⟩, some ⟨"package path conflict between %s and %s",
        [.importPath "x/a", .importPath "x/b"]⟩) := by
  refine ⟨?_, ?_, ?_, ?_, ?_, ?_⟩ <;> decide

/-- C11, amended. Provided `sort.Slice` rearranges the slice: the root that the loop of
`generateFiles` ends with is the first service-declaring file of the list as `sort.Slice`
rearranged it; and when the input has a conflict, the error returned names the identity of
that root first and second the identity of the first service-declaring file of the
rearranged list that differs from the root: the import paths when these differ, and
otherwise the packages. -/
theorem generateFiles_root_first_of_sorted (E : Env) (hsort : SortPermutes E.sortSlice)
    (gen : Plugin) (files : List File) :
    (∀ st, scan ⟨0, [], none⟩ (E.sortSlice lessByName files) = .ok st →
      st.file = (E.sortSlice lessByName files).find? File.hasServices) ∧
    (HasConflict files →
      ∃ r f pre post, (E.sortSlice lessByName files).find? File.hasServices = some r ∧
        E.sortSlice lessByName files = pre ++ f :: post ∧
        (∀ g ∈ pre, g.hasServices = true → ¬ g.conflictsWith r) ∧
        f.hasServices = true ∧ f.conflictsWith r ∧
        generateFiles E gen files =
          (gen, some (if f.GoImportPath ≠ r.GoImportPath then
            ⟨"package path conflict between %s and %s",
              [.importPath r.GoImportPath, .importPath f.GoImportPath]⟩
          else
            ⟨"package path conflict between %s and %s",
              [.fullName r.Desc.Package, .fullName f.Desc.Package]⟩))) := by
  constructor
  · intro st hst
    exact (scan_ok _ _ _ hst).1
  · intro hconf
    obtain ⟨e, he⟩ := scan_error_of_conflict
      (hasConflict_perm (hsort lessByName files).symm hconf)
    obtain ⟨r, f, pre, post, hr, hfs, hpre, hfq, hcase⟩ := scan_error_first _ _ e he
    refine ⟨r, f, pre, post, hr, hfs, ?_, hfq, ?_, ?_⟩
    · intro g hg hgq hgr
      obtain ⟨h1, h2⟩ := hpre g hg hgq
      rcases hgr with hne | hne
      · exact hne h1
      · exact hne h2
    · rcases hcase with ⟨hne, _⟩ | ⟨_, hne, _⟩
      · exact Or.inl hne
      · exact Or.inr hne
    · rw [generateFiles_of_scan_error he]
      rcases hcase with ⟨hne, rfl⟩ | ⟨heq, _, rfl⟩
      · rw [if_pos hne]
      · rw [if_neg (not_not.2 heq)]

/-- C11, amended, at the input with the file of package `b` before the file of package `a`. -/
theorem generateFiles_root_first_of_sorted_witness :
    SortPermutes envInsertion.sortSlice ∧ HasConflict [packageBFile, packageAFile] ∧
    ∃ r f pre post,
      (envInsertion.sortSlice lessByName [packageBFile, packageAFile]).find?
        File.hasServices = some r ∧
      envInsertion.sortSlice lessByName [packageBFile, packageAFile] = pre ++ f :: post ∧
      (∀ g ∈ pre, g.hasServices = true → ¬ g.conflictsWith r) ∧
      f.hasServices = true ∧ f.conflictsWith r ∧
      generateFiles envInsertion ⟨[]⟩ [packageBFile, packageAFile] =
        (⟨[]⟩, some (if f.GoImportPath ≠ r.GoImportPath then
          ⟨"package path conflict between %s and %s",
            [.importPath r.GoImportPath, .importPath f.GoImportPath]⟩
        else
          ⟨"package path conflict between %s and %s",
            [.fullName r.Desc.Package, .fullName f.Desc.Package]⟩)) :=
  have hconf : HasConflict [packageBFile, packageAFile] :=
    ⟨packageBFile, by simp, packageAFile, by simp, by decide, by decide, by decide⟩
  ⟨insertionSort_permutes, hconf,
    (generateFiles_root_first_of_sorted envInsertion insertionSort_permutes ⟨[]⟩
      [packageBFile, packageAFile]).2 hconf⟩

/-! ## `genClient`: the sections -/

theorem flatMap_services {β : Type} (files : List File) (g : File → Service → List β) :
    (files.flatMap fun file => file.Services.flatMap fun ser => g file ser) =
      (servicePairs files).flatMap (fun p => g p.1 p.2) := by
  unfold servicePairs
  rw [List.flatMap_assoc]
  congr 1
  funext f
  rw [List.flatMap_map]

theorem flatMap_one {α β : Type} (l : List α) (g : α → β) :
    (l.flatMap fun x => [g x]) = l.map g := by
  induction l with
  | nil => rfl
  | cons a l ih => simp [ih]

theorem mem_servicePairs {files : List File} {f : File} {s : Service} :
    (f, s) ∈ servicePairs files ↔ f ∈ files ∧ s ∈ f.Services := by
  unfold servicePairs
  simp only [List.mem_flatMap, List.mem_map, Prod.mk.injEq]
  constructor
  · rintro ⟨g, hg, t, ht, rfl, rfl⟩
    exact ⟨hg, ht⟩
  · rintro ⟨hf, hs⟩
    exact ⟨f, hf, s, hs, rfl, rfl⟩

/-- The interface body, pair by pair: the comment line and then the accessor. -/
theorem interfaceBody_eq (files : List File) :
    interfaceBody files = (servicePairs files).flatMap (fun p =>
      [ [.str "// ", .str p.2.GoName, .str " ", .str p.1.Desc.Path],
        [.str p.2.GoName, .str "() ", .ident ⟨p.2.GoName ++ "Client", p.1.GoImportPath⟩] ]) :=
  flatMap_services files _

/-- The struct literal of the factory, pair by pair: one line each. -/
theorem factoryBody_eq (U : Unicode) (files : List File) :
    factoryBody U files = (servicePairs files).map (fun p =>
      [.str (lowerCaptain U p.2.GoName), .str ": ",
       .ident ⟨"New" ++ p.2.GoName ++ "Client", p.1.GoImportPath⟩, .str "(cc),"]) := by
  unfold factoryBody
  rw [flatMap_services files (fun file ser =>
    [[Arg.str (lowerCaptain U ser.GoName), Arg.str ": ",
      Arg.ident (Ident file.GoImportPath ("New" ++ ser.GoName ++ "Client")), Arg.str "(cc),"]])]
  exact flatMap_one _ _

/-- The struct declaration, pair by pair: one line each. -/
theorem structBody_eq (U : Unicode) (files : List File) :
    structBody U files = (servicePairs files).map (fun p =>
      [.str (lowerCaptain U p.2.GoName), .str " ",
       .ident ⟨p.2.GoName ++ "Client", p.1.GoImportPath⟩]) := by
  unfold structBody
  rw [flatMap_services files (fun file ser =>
    [[Arg.str (lowerCaptain U ser.GoName), Arg.str " ",
      Arg.ident (Ident file.GoImportPath (ser.GoName ++ "Client"))]])]
  exact flatMap_one _ _

/-- The accessor implementations, pair by pair: four lines each. -/
theorem accessorImpls_eq (U : Unicode) (files : List File) :
    accessorImpls U files = (servicePairs files).flatMap (fun p =>
      [ [.str "func (c *serviceClients) ", .str p.2.GoName, .str "() ",
         .ident ⟨p.2.GoName ++ "Client", p.1.GoImportPath⟩, .str " \x7b"],
        [.str "\treturn c.", .str (lowerCaptain U p.2.GoName)],
        [.str "\x7d"],
        [] ]) :=
  flatMap_services files _

/-- The wrapper types, pair by pair: the type declaration and then the dispatch functions of
the methods, in the order of declaration. -/
theorem wrapperTypes_eq (U : Unicode) (files : List File) :
    wrapperTypes U files = (servicePairs files).flatMap (fun p =>
      [ [.str ("type " ++ (lowerCaptain U p.2.GoName ++ "Wrapper") ++ " struct \x7b")],
        [.str "\tclient ", .ident ⟨p.2.GoName ++ "Client", p.1.GoImportPath⟩],
        [.str "\topts   []", .ident ⟨"CallOption", grpcPackage⟩],
        [.str "\x7d"],
        [] ]
      ++ p.2.Methods.flatMap (wrapperMethod (lowerCaptain U p.2.GoName ++ "Wrapper"))) :=
  flatMap_services files _

theorem flatMap_split_of_mem {α β : Type} {l : List α} {a : α} (g : α → List β) (h : a ∈ l) :
    ∃ before after, l.flatMap g = before ++ g a ++ after := by
  obtain ⟨l1, l2, rfl⟩ := List.append_of_mem h
  exact ⟨l1.flatMap g, l2.flatMap g, by simp⟩

/-- C12. For every file list, each of the five sections that `genClient` prints between its
fixed lines is made of one entry for each (file, service) pair, the pairs taken in the same
order (files in the order of the list, services in the order of declaration): two lines in
the interface body, the comment with the service's name and its file's descriptor path and
right after it the accessor; one line in the factory literal; one line in the struct; four
lines in the accessor implementations; and in the wrapper types the type declaration
followed by the dispatch functions of the service. -/
theorem genClient_sections_follow_pairs (E : Env) (files : List File) (sources : String) :
    (servicePairs [] = [] ∧ ∀ f fs, servicePairs (f :: fs) =
      f.Services.map (fun s => (f, s)) ++ servicePairs fs) ∧
    genClientLines E files sources =
      [ [.str "// Code generated by ", .str E.genName, .str ". DO NOT EDIT."],
        [.str "// Sources: ", .str sources],
        [],
        [.str "package ", .str "client"],
        [],
        [.str "// Client provide all service clients."],
        [.str "type Client interface \x7b"] ]
      ++ interfaceBody files
      ++ [ [.str "\x7d"],
           [],
           [.str "// New create client"],
           [.str "func New(cc ", .ident ⟨"ClientConnInterface", transgrpcPackage⟩,
            .str ") Client \x7b"],
           [.str "\treturn &serviceClients\x7b"] ]
      ++ factoryBody E.unicode files
      ++ [ [.str "\t\x7d"],
           [.str "\x7d"],
           [],
           [.str "type serviceClients struct \x7b"] ]
      ++ structBody E.unicode files
      ++ [ [.str "\x7d"],
           [] ]
      ++ accessorImpls E.unicode files
      ++ [ [] ]
      ++ wrapperTypes E.unicode files ∧
    interfaceBody files = (servicePairs files).flatMap (fun p =>
      [ [.str "// ", .str p.2.GoName, .str " ", .str p.1.Desc.Path],
        [.str p.2.GoName, .str "() ", .ident ⟨p.2.GoName ++ "Client", p.1.GoImportPath⟩] ]) ∧
    factoryBody E.unicode files = (servicePairs files).map (fun p =>
      [.str (lowerCaptain E.unicode p.2.GoName), .str ": ",
       .ident ⟨"New" ++ p.2.GoName ++ "Client", p.1.GoImportPath⟩, .str "(cc),"]) ∧
    structBody E.unicode files = (servicePairs files).map (fun p =>
      [.str (lowerCaptain E.unicode p.2.GoName), .str " ",
       .ident ⟨p.2.GoName ++ "Client", p.1.GoImportPath⟩]) ∧
    accessorImpls E.unicode files = (servicePairs files).flatMap (fun p =>
      [ [.str "func (c *serviceClients) ", .str p.2.GoName, .str "() ",
         .ident ⟨p.2.GoName ++ "Client", p.1.GoImportPath⟩, .str " \x7b"],
        [.str "\treturn c.", .str (lowerCaptain E.unicode p.2.GoName)],
        [.str "\x7d"],
        [] ]) ∧
    wrapperTypes E.unicode files = (servicePairs files).flatMap (fun p =>
      [ [.str ("type " ++ (lowerCaptain E.unicode p.2.GoName ++ "Wrapper") ++ " struct \x7b")],
        [.str "\tclient ", .ident ⟨p.2.GoName ++ "Client", p.1.GoImportPath⟩],
        [.str "\topts   []", .ident ⟨"CallOption", grpcPackage⟩],
        [.str "\x7d"],
        [] ]
      ++ p.2.Methods.flatMap
          (wrapperMethod (lowerCaptain E.unicode p.2.GoName ++ "Wrapper"))) := by
  refine ⟨⟨rfl, fun f fs => ?_⟩, rfl, interfaceBody_eq files, factoryBody_eq _ files,
    structBody_eq _ files, accessorImpls_eq _ files, wrapperTypes_eq _ files⟩
  simp [servicePairs]

theorem split_of_getElem? {α : Type} : ∀ (l : List α) (k : Nat) (a : α), l[k]? = some a →
    ∃ l1 l2, l = l1 ++ a :: l2 ∧ l1.length = k := by
  intro l
  induction l with
  | nil => intro k a h; simp at h
  | cons b l ih =>
    intro k a h
    cases k with
    | zero =>
      simp only [List.getElem?_cons_zero, Option.some.injEq] at h
      subst h
      exact ⟨[], l, rfl, rfl⟩
    | succ k =>
      simp only [List.getElem?_cons_succ] at h
      obtain ⟨l1, l2, hl, hlen⟩ := ih k a h
      exact ⟨b :: l1, l2, by rw [hl]; rfl, by simp [hlen]⟩

theorem flatMap_length_const {α β : Type} (g : α → List β) (n : Nat)
    (hg : ∀ a, (g a).length = n) (l : List α) : (l.flatMap g).length = n * l.length := by
  induction l with
  | nil => simp
  | cons a l ih => simp [ih, hg a, Nat.mul_succ, Nat.add_comm]

/-- The block of the `k`-th element of a list starts after the blocks of the `k` elements
before it. -/
theorem flatMap_block_at {α β : Type} (g : α → List β) (n : Nat) (hg : ∀ a, (g a).length = n)
    (l : List α) (k : Nat) (a : α) (h : l[k]? = some a) :
    ∃ before after, l.flatMap g = before ++ g a ++ after ∧ before.length = n * k := by
  obtain ⟨l1, l2, rfl, hlen⟩ := split_of_getElem? l k a h
  refine ⟨l1.flatMap g, l2.flatMap g, by simp, ?_⟩
  rw [flatMap_length_const g n hg, hlen]

theorem map_block_at {α β : Type} (g : α → β) (l : List α) (k : Nat) (a : α)
    (h : l[k]? = some a) :
    ∃ before after, l.map g = before ++ [g a] ++ after ∧ before.length = k := by
  obtain ⟨l1, l2, rfl, hlen⟩ := split_of_getElem? l k a h
  exact ⟨l1.map g, l2.map g, by simp, by simp [hlen]⟩

/-- A block found in a section of a buffer is found in the buffer, after the lines that come
before the section. -/
theorem block_in_sections {β : Type} {L P X Q blk : List β} {m : Nat} (hL : L = P ++ X ++ Q)
    (hX : ∃ before after, X = before ++ blk ++ after ∧ before.length = m) :
    ∃ before after, L = before ++ blk ++ after ∧ before.length = P.length + m := by
  obtain ⟨before, after, hX, hlen⟩ := hX
  refine ⟨P ++ before, after ++ Q, ?_, ?_⟩
  · rw [hL, hX]; simp only [List.append_assoc]
  · rw [List.length_append, hlen]

theorem interfaceBody_length (files : List File) :
    (interfaceBody files).length = 2 * (servicePairs files).length := by
  rw [interfaceBody_eq]
  refine flatMap_length_const _ 2 ?_ _
  intro p; rfl

theorem factoryBody_length (U : Unicode) (files : List File) :
    (factoryBody U files).length = (servicePairs files).length := by
  rw [factoryBody_eq, List.length_map]

theorem structBody_length (U : Unicode) (files : List File) :
    (structBody U files).length = (servicePairs files).length := by
  rw [structBody_eq, List.length_map]

theorem accessorImpls_length (U : Unicode) (files : List File) :
    (accessorImpls U files).length = 4 * (servicePairs files).length := by
  rw [accessorImpls_eq]
  refine flatMap_length_const _ 4 ?_ _
  intro p; rfl

/-- The buffer that `genClient` fills has the layout of `clientLayout`. -/
theorem genClientLines_layout (E : Env) (files : List File) (sources : String) :
    genClientLines E files sources = clientLayout E files sources := rfl

/-- The interface body in the layout: it follows the seven lines of the head. -/
theorem layout_interface (E : Env) (files : List File) (sources : String) :
    ∃ P Q, clientLayout E files sources = P ++ interfaceBody files ++ Q ∧ P.length = 7 :=
  ⟨linesBeforeInterface E sources,
    linesBeforeFactory ++ factoryBody E.unicode files ++ linesBeforeStruct ++
      structBody E.unicode files ++ linesBeforeAccessors ++ accessorImpls E.unicode files ++
      [[]] ++ wrapperTypes E.unicode files,
    by simp only [clientLayout, List.append_assoc], rfl⟩

/-- The factory literal in the layout. -/
theorem layout_factory (E : Env) (files : List File) (sources : String) :
    ∃ P Q, clientLayout E files sources = P ++ factoryBody E.unicode files ++ Q ∧
      P.length = 12 + 2 * (servicePairs files).length := by
  refine ⟨linesBeforeInterface E sources ++ interfaceBody files ++ linesBeforeFactory,
    linesBeforeStruct ++ structBody E.unicode files ++ linesBeforeAccessors ++
      accessorImpls E.unicode files ++ [[]] ++ wrapperTypes E.unicode files,
    by simp only [clientLayout, List.append_assoc], ?_⟩
  simp only [List.length_append, interfaceBody_length, linesBeforeInterface,
    linesBeforeFactory, List.length_cons, List.length_nil]
  omega

/-- The struct fields in the layout. -/
theorem layout_struct (E : Env) (files : List File) (sources : String) :
    ∃ P Q, clientLayout E files sources = P ++ structBody E.unicode files ++ Q ∧
      P.length = 16 + 3 * (servicePairs files).length := by
  refine ⟨linesBeforeInterface E sources ++ interfaceBody files ++ linesBeforeFactory ++
      factoryBody E.unicode files ++ linesBeforeStruct,
    linesBeforeAccessors ++ accessorImpls E.unicode files ++ [[]] ++
      wrapperTypes E.unicode files,
    by simp only [clientLayout, List.append_assoc], ?_⟩
  simp only [List.length_append, interfaceBody_length, factoryBody_length,
    linesBeforeInterface, linesBeforeFactory, linesBeforeStruct, List.length_cons,
    List.length_nil]
  omega

/-- The accessor implementations in the layout. -/
theorem layout_accessors (E : Env) (files : List File) (sources : String) :
    ∃ P Q, clientLayout E files sources = P ++ accessorImpls E.unicode files ++ Q ∧
      P.length = 18 + 4 * (servicePairs files).length := by
  refine ⟨linesBeforeInterface E sources ++ interfaceBody files ++ linesBeforeFactory ++
      factoryBody E.unicode files ++ linesBeforeStruct ++ structBody E.unicode files ++
      linesBeforeAccessors,
    [[]] ++ wrapperTypes E.unicode files,
    by simp only [clientLayout, List.append_assoc], ?_⟩
  simp only [List.length_append, interfaceBody_length, factoryBody_length, structBody_length,
    linesBeforeInterface, linesBeforeFactory, linesBeforeStruct, linesBeforeAccessors,
    List.length_cons, List.length_nil]
  omega

/-- C13. For the `k`-th of the `n` (file, service) pairs of a file list, `genClient` adds to
the plugin the output file `client.go` whose buffer holds, for this pair: at line `7 + 2k`
the comment and the interface accessor with return type `GoName+"Client"` of the import path
of the file; at line `12 + 2n + k` the key `lowerCaptain(GoName)` of the factory literal,
initialised with `"New"+GoName+"Client"` of the same import path applied to `cc`; at line
`16 + 3n + k` the struct field `lowerCaptain(GoName)` of type `GoName+"Client"` of that
same import path; and at line `18 + 4n + 4k` the four lines of the accessor implementation,
which has the same return type and returns the field `lowerCaptain(GoName)`. These are the
`k`-th entries of the four sections. -/
theorem genClient_names_agree (E : Env) (gen : Plugin) (files : List File)
    (root : Option File) (sources : String) (k : Nat) (f : File) (s : Service)
    (hk : (servicePairs files)[k]? = some (f, s)) :
    ∃ (u : GeneratedFile) (field : String) (client : GoIdent),
      genClient E gen files root sources = (⟨gen.genFiles ++ [u]⟩, none) ∧
      u.filename = "client.go" ∧
      field = lowerCaptain E.unicode s.GoName ∧
      client = ⟨s.GoName ++ "Client", f.GoImportPath⟩ ∧
      (∃ before after, u.buf =
        before ++
          [ [.str "// ", .str s.GoName, .str " ", .str f.Desc.Path],
            [.str s.GoName, .str "() ", .ident client] ] ++ after ∧
        before.length = 7 + 2 * k) ∧
      (∃ before after, u.buf =
        before ++
          [ [.str field, .str ": ",
             .ident ⟨"New" ++ s.GoName ++ "Client", f.GoImportPath⟩, .str "(cc),"] ] ++ after ∧
        before.length = 12 + 2 * (servicePairs files).length + k) ∧
      (∃ before after, u.buf =
        before ++ [ [.str field, .str " ", .ident client] ] ++ after ∧
        before.length = 16 + 3 * (servicePairs files).length + k) ∧
      (∃ before after, u.buf =
        before ++
          [ [.str "func (c *serviceClients) ", .str s.GoName, .str "() ", .ident client,
             .str " \x7b"],
            [.str "\treturn c.", .str field],
            [.str "\x7d"],
            [] ] ++ after ∧
        before.length = 18 + 4 * (servicePairs files).length + 4 * k) ∧
      (structBody E.unicode files)[k]? = some [.str field, .str " ", .ident client] ∧
      (factoryBody E.unicode files)[k]? =
        some [.str field, .str ": ",
          .ident ⟨"New" ++ s.GoName ++ "Client", f.GoImportPath⟩, .str "(cc),"] ∧
      (∃ before after, accessorImpls E.unicode files =
        before ++
          [ [.str "func (c *serviceClients) ", .str s.GoName, .str "() ", .ident client,
             .str " \x7b"],
            [.str "\treturn c.", .str field],
            [.str "\x7d"],
            [] ] ++ after ∧ before.length = 4 * k) ∧
      (∃ before after, interfaceBody files =
        before ++
          [ [.str "// ", .str s.GoName, .str " ", .str f.Desc.Path],
            [.str s.GoName, .str "() ", .ident client] ] ++ after ∧
        before.length = 2 * k) := by
  have hiface : ∃ before after, interfaceBody files =
      before ++
        [ [Arg.str "// ", Arg.str s.GoName, Arg.str " ", Arg.str f.Desc.Path],
          [Arg.str s.GoName, Arg.str "() ",
           Arg.ident ⟨s.GoName ++ "Client", f.GoImportPath⟩] ] ++ after ∧
      before.length = 2 * k := by
    rw [interfaceBody_eq]
    refine flatMap_block_at _ 2 ?_ _ k (f, s) hk
    intro p; rfl
  have hfactory : ∃ before after, factoryBody E.unicode files =
      before ++
        [ [Arg.str (lowerCaptain E.unicode s.GoName), Arg.str ": ",
           Arg.ident ⟨"New" ++ s.GoName ++ "Client", f.GoImportPath⟩, Arg.str "(cc),"] ] ++
        after ∧ before.length = k := by
    rw [factoryBody_eq]
    exact map_block_at _ _ k (f, s) hk
  have hstruct : ∃ before after, structBody E.unicode files =
      before ++
        [ [Arg.str (lowerCaptain E.unicode s.GoName), Arg.str " ",
           Arg.ident ⟨s.GoName ++ "Client", f.GoImportPath⟩] ] ++ after ∧
      before.length = k := by
    rw [structBody_eq]
    exact map_block_at _ _ k (f, s) hk
  have haccess : ∃ before after, accessorImpls E.unicode files =
      before ++
        [ [Arg.str "func (c *serviceClients) ", Arg.str s.GoName, Arg.str "() ",
           Arg.ident ⟨s.GoName ++ "Client", f.GoImportPath⟩, Arg.str " \x7b"],
          [Arg.str "\treturn c.", Arg.str (lowerCaptain E.unicode s.GoName)],
          [Arg.str "\x7d"],
          [] ] ++ after ∧ before.length = 4 * k := by
    rw [accessorImpls_eq]
    refine flatMap_block_at _ 4 ?_ _ k (f, s) hk
    intro p; rfl
  have hlay : genClientLines E files sources = clientLayout E files sources := rfl
  have hgen : genClient E gen files root sources =
      (⟨gen.genFiles ++ [⟨"client.go", "client", genClientLines E files sources⟩]⟩, none) :=
    rfl
  obtain ⟨P1, Q1, h1, hP1⟩ := layout_interface E files sources
  obtain ⟨P2, Q2, h2, hP2⟩ := layout_factory E files sources
  obtain ⟨P3, Q3, h3, hP3⟩ := layout_struct E files sources
  obtain ⟨P4, Q4, h4, hP4⟩ := layout_accessors E files sources
  rw [← hlay] at h1 h2 h3 h4
  refine ⟨⟨"client.go", "client", genClientLines E files sources⟩, _, _, hgen, rfl, rfl, rfl,
    ?_, ?_, ?_, ?_, ?_, ?_, haccess, hiface⟩
  · have := block_in_sections h1 hiface
    rwa [hP1] at this
  · have := block_in_sections h2 hfactory
    rwa [hP2] at this
  · have := block_in_sections h3 hstruct
    rwa [hP3] at this
  · have := block_in_sections h4 haccess
    rwa [hP4] at this
  · rw [structBody_eq, List.getElem?_map, hk]; rfl
  · rw [factoryBody_eq, List.getElem?_map, hk]; rfl

/-- C13, at the second pair of the files `a.proto` and `b.proto`: the service `Beta`. -/
theorem genClient_names_agree_witness :
    (servicePairs [alphaFile, betaFile])[1]? = some (betaFile, ⟨"Beta", []⟩) ∧
    ∃ (u : GeneratedFile) (field : String) (client : GoIdent),
      genClient envInsertion ⟨[]⟩ [alphaFile, betaFile] none "a.proto, b.proto" =
        (⟨([] : List GeneratedFile) ++ [u]⟩, none) ∧
      u.filename = "client.go" ∧
      field = lowerCaptain envInsertion.unicode "Beta" ∧
      client = ⟨"Beta" ++ "Client", betaFile.GoImportPath⟩ ∧
      (∃ before after, u.buf =
        before ++
          [ [.str "// ", .str "Beta", .str " ", .str betaFile.Desc.Path],
            [.str "Beta", .str "() ", .ident client] ] ++ after ∧
        before.length = 7 + 2 * 1) ∧
      (∃ before after, u.buf =
        before ++
          [ [.str field, .str ": ",
             .ident ⟨"New" ++ "Beta" ++ "Client", betaFile.GoImportPath⟩, .str "(cc),"] ] ++
          after ∧
        before.length = 12 + 2 * (servicePairs [alphaFile, betaFile]).length + 1) ∧
      (∃ before after, u.buf =
        before ++ [ [.str field, .str " ", .ident client] ] ++ after ∧
        before.length = 16 + 3 * (servicePairs [alphaFile, betaFile]).length + 1) ∧
      (∃ before after, u.buf =
        before ++
          [ [.str "func (c *serviceClients) ", .str "Beta", .str "() ", .ident client,
             .str " \x7b"],
            [.str "\treturn c.", .str field],
            [.str "\x7d"],
            [] ] ++ after ∧
        before.length = 18 + 4 * (servicePairs [alphaFile, betaFile]).length + 4 * 1) ∧
      (structBody envInsertion.unicode [alphaFile, betaFile])[1]? =
        some [.str field, .str " ", .ident client] ∧
      (factoryBody envInsertion.unicode [alphaFile, betaFile])[1]? =
        some [.str field, .str ": ",
          .ident ⟨"New" ++ "Beta" ++ "Client", betaFile.GoImportPath⟩, .str "(cc),"] ∧
      (∃ before after, accessorImpls envInsertion.unicode [alphaFile, betaFile] =
        before ++
          [ [.str "func (c *serviceClients) ", .str "Beta", .str "() ", .ident client,
             .str " \x7b"],
            [.str "\treturn c.", .str field],
            [.str "\x7d"],
            [] ] ++ after ∧ before.length = 4 * 1) ∧
      (∃ before after, interfaceBody [alphaFile, betaFile] =
        before ++
          [ [.str "// ", .str "Beta", .str " ", .str betaFile.Desc.Path],
            [.str "Beta", .str "() ", .ident client] ] ++ after ∧
        before.length = 2 * 1) :=
  ⟨by decide,
    genClient_names_agree envInsertion ⟨[]⟩ [alphaFile, betaFile] none "a.proto, b.proto" 1
      betaFile ⟨"Beta", []⟩ (by decide)⟩

/-- C14. For every file list, the wrapper types that `genClient` prints last are, for each
(file, service) pair in order, the declaration of the type `lowerCaptain(GoName)+"Wrapper"`
followed, for each method of the service in the order of declaration, by one dispatch
function of four lines: the signature `func (s *T) M(ctx context.Context,req *In) (*Out,
error)` with `M` the method's name and `In`, `Out` its input and output types, the single
statement `return s.client.M(ctx, req, append(CallOptionFromContext(ctx), s.opts...)...)`,
the closing brace and an empty line. -/
theorem genClient_wrapper_dispatch (E : Env) (files : List File) (sources : String) :
    (∃ before, genClientLines E files sources = before ++ wrapperTypes E.unicode files) ∧
    wrapperTypes E.unicode files = (servicePairs files).flatMap (fun p =>
      [ [.str ("type " ++ (lowerCaptain E.unicode p.2.GoName ++ "Wrapper") ++ " struct \x7b")],
        [.str "\tclient ", .ident ⟨p.2.GoName ++ "Client", p.1.GoImportPath⟩],
        [.str "\topts   []", .ident ⟨"CallOption", grpcPackage⟩],
        [.str "\x7d"],
        [] ]
      ++ p.2.Methods.flatMap (fun m =>
        [ [.str "func (s *", .str (lowerCaptain E.unicode p.2.GoName ++ "Wrapper"), .str ") ",
           .str m.GoName, .str "(ctx ", .ident ⟨"Context", contextPackage⟩, .str ",req *",
           .ident m.Input.GoIdent, .str ") (*", .ident m.Output.GoIdent,
           .str ", error) \x7b"],
          [.str "\treturn s.client.", .str m.GoName, .str "(ctx, req, append(",
           .ident ⟨"CallOptionFromContext", transgrpcPackage⟩,
           .str "(ctx), s.opts...)...)"],
          [.str "\x7d"],
          [] ])) := by
  refine ⟨⟨_, rfl⟩, ?_⟩
  rw [wrapperTypes_eq]
  rfl

/-! ## `lowerCaptain`: further properties -/

/-- When every rune has the class of `pre`, the loop lower-cases all of them. -/
theorem lowerLoop_all (U : Unicode) (pre : Char) (l : List Char)
    (h : ∀ d ∈ l, U.IsUpper d = U.IsUpper pre) : lowerLoop U pre l = l.map U.ToLower := by
  induction l with
  | nil => rfl
  | cons d l ih =>
    unfold lowerLoop
    have hd := h d (List.mem_cons_self _ _)
    simp only [hd, bne_self_eq_false, Bool.false_eq_true, if_false, List.map_cons]
    rw [ih (fun x hx => h x (List.mem_cons_of_mem _ hx))]

/-- When `pre` is not upper case and `ToLower` leaves the runes that are not upper case as
they are, the loop changes nothing. -/
theorem lowerLoop_fixed (U : Unicode) (pre : Char) (hpre : U.IsUpper pre = false)
    (l : List Char) (h : ∀ d ∈ l, U.IsUpper d = false → U.ToLower d = d) :
    lowerLoop U pre l = l := by
  induction l with
  | nil => rfl
  | cons d l ih =>
    unfold lowerLoop
    by_cases hd : U.IsUpper d = true
    · simp [hd, hpre]
    · have hd' : U.IsUpper d = false := by simpa using hd
      simp only [hd', hpre, bne_self_eq_false, Bool.false_eq_true, if_false]
      rw [h d (List.mem_cons_self _ _) hd', ih (fun x hx => h x (List.mem_cons_of_mem _ hx))]

theorem lowerLoop_length (U : Unicode) (pre : Char) (l : List Char) :
    (lowerLoop U pre l).length = l.length := by
  induction l with
  | nil => rfl
  | cons d l ih =>
    unfold lowerLoop
    split
    · rfl
    · simp [ih]

theorem lowerLoop_map_toLower (U : Unicode) (pre : Char) (l : List Char)
    (h : ∀ d ∈ l, U.ToLower (U.ToLower d) = U.ToLower d) :
    (lowerLoop U pre l).map U.ToLower = l.map U.ToLower := by
  induction l with
  | nil => rfl
  | cons d l ih =>
    unfold lowerLoop
    split
    · rfl
    · simp only [List.map_cons]
      rw [h d (List.mem_cons_self _ _), ih (fun x hx => h x (List.mem_cons_of_mem _ hx))]

/-- C15. For every non-empty identifier all of whose runes are upper case (the first one not
being classed lower case as well), `lowerCaptain` returns the identifier with every rune
replaced by its lower-case form. -/
theorem lowerCaptain_all_upper (U : Unicode) (s : String) (c : Char) (cs : List Char)
    (hs : s.data = c :: cs) (hall : ∀ d ∈ s.data, U.IsUpper d = true)
    (hlow : U.IsLower c = false) :
    lowerCaptain U s = String.mk (s.data.map U.ToLower) := by
  rw [lowerCaptain_cons U s c cs hs, hlow]
  simp only [Bool.false_eq_true, if_false]
  rw [hs] at hall
  have hc := hall c (List.mem_cons_self _ _)
  rw [lowerLoop_all U c (c :: cs) (fun d hd => (hall d hd).trans hc.symm), hs]

/-- C15, at the identifier `ABC`. -/
theorem lowerCaptain_all_upper_witness :
    "ABC".data = 'A' :: ['B', 'C'] ∧ (∀ d ∈ "ABC".data, unicodeExcerpt.IsUpper d = true) ∧
    unicodeExcerpt.IsLower 'A' = false ∧
    lowerCaptain unicodeExcerpt "ABC" = String.mk ("ABC".data.map unicodeExcerpt.ToLower) ∧
    String.mk ("ABC".data.map unicodeExcerpt.ToLower) = "abc" :=
  ⟨rfl, by decide, by decide,
    lowerCaptain_all_upper unicodeExcerpt "ABC" 'A' ['B', 'C'] rfl (by decide) (by decide),
    by decide⟩

/-- C16. For every identifier whose first rune is lower case, `lowerCaptain` returns the
identifier unchanged. -/
theorem lowerCaptain_lower_first (U : Unicode) (s : String) (c : Char) (cs : List Char)
    (hs : s.data = c :: cs) (hlow : U.IsLower c = true) : lowerCaptain U s = s := by
  rw [lowerCaptain_cons U s c cs hs, if_pos hlow]

/-- C16, at the identifier `fooBar`. -/
theorem lowerCaptain_lower_first_witness :
    "fooBar".data = 'f' :: "ooBar".data ∧ unicodeExcerpt.IsLower 'f' = true ∧
    lowerCaptain unicodeExcerpt "fooBar" = "fooBar" :=
  ⟨rfl, by decide,
    lowerCaptain_lower_first unicodeExcerpt "fooBar" 'f' "ooBar".data rfl (by decide)⟩

/-- With tables that agree with Go on ASCII, `ToLower` leaves an ASCII rune that is not
upper case as it is. -/
theorem ascii_toLower_fixed (U : Unicode) (hU : GoASCII U) (d : Char) (hd : d.toNat < 128)
    (hup : U.IsUpper d = false) : U.ToLower d = d := by
  obtain ⟨h1, _, h3⟩ := hU d hd
  rw [h1] at hup
  rw [h3, if_neg (of_decide_eq_false hup)]

/-- With tables that agree with Go on ASCII, the lower-case form of an ASCII capital is a
lower-case letter. -/
theorem ascii_capital_toLower_isLower (U : Unicode) (hU : GoASCII U) (c : Char)
    (hc : c.toNat < 128) (hup : U.IsUpper c = true) : U.IsLower (U.ToLower c) = true := by
  obtain ⟨h1, _, h3⟩ := hU c hc
  rw [h1] at hup
  have hrange : 65 ≤ c.toNat ∧ c.toNat ≤ 90 := of_decide_eq_true hup
  have hval : (Char.ofNat (c.toNat + 32)).toNat = c.toNat + 32 :=
    toNat_ofNat_small _ (by omega)
  rw [h3, if_pos hrange]
  obtain ⟨_, k2, _⟩ := hU (Char.ofNat (c.toNat + 32)) (by omega)
  rw [k2]
  exact decide_eq_true (by omega)

/-- C19. With tables that agree with Go's `unicode` on ASCII, `lowerCaptain` is idempotent
on every identifier of ASCII runes. -/
theorem lowerCaptain_idempotent_ascii (U : Unicode) (hU : GoASCII U) (s : String)
    (hs : ∀ c ∈ s.data, c.toNat < 128) :
    lowerCaptain U (lowerCaptain U s) = lowerCaptain U s := by
  cases hd : s.data with
  | nil => rw [lowerCaptain_nil U s hd]; exact lowerCaptain_nil U s hd
  | cons c cs =>
    rw [hd] at hs
    have hc := hs c (List.mem_cons_self _ _)
    by_cases hl : U.IsLower c = true
    · have hfix : lowerCaptain U s = s := by rw [lowerCaptain_cons U s c cs hd, if_pos hl]
      rw [hfix, hfix]
    · have hres : lowerCaptain U s = String.mk (lowerLoop U c (c :: cs)) := by
        rw [lowerCaptain_cons U s c cs hd, if_neg hl]
      by_cases hup : U.IsUpper c = true
      · have hloop : lowerLoop U c (c :: cs) = U.ToLower c :: lowerLoop U c cs := by
          simp [lowerLoop]
        rw [hres, hloop]
        rw [lowerCaptain_cons U (String.mk (U.ToLower c :: lowerLoop U c cs)) (U.ToLower c)
          (lowerLoop U c cs) rfl, if_pos (ascii_capital_toLower_isLower U hU c hc hup)]
      · have hup' : U.IsUpper c = false := by simpa using hup
        have hloop : lowerLoop U c (c :: cs) = c :: cs :=
          lowerLoop_fixed U c hup' (c :: cs)
            (fun d hd hdu => ascii_toLower_fixed U hU d (hs d hd) hdu)
        have hsame : lowerCaptain U s = s := by
          rw [hres, hloop, ← hd]
        rw [hsame, hsame]

/-- C19, at the identifier `HTTPServer`. -/
theorem lowerCaptain_idempotent_ascii_witness :
    GoASCII unicodeExcerpt ∧ (∀ c ∈ "HTTPServer".data, c.toNat < 128) ∧
    lowerCaptain unicodeExcerpt (lowerCaptain unicodeExcerpt "HTTPServer") =
      lowerCaptain unicodeExcerpt "HTTPServer" :=
  ⟨unicodeExcerpt_goASCII, by decide,
    lowerCaptain_idempotent_ascii unicodeExcerpt unicodeExcerpt_goASCII "HTTPServer"
      (by decide)⟩

/-- With tables that agree with Go on ASCII, `ToLower` is idempotent on every ASCII rune:
the condition of C20 holds for every identifier of ASCII runes. -/
theorem ascii_toLower_idempotent (U : Unicode) (hU : GoASCII U) (c : Char)
    (hc : c.toNat < 128) : U.ToLower (U.ToLower c) = U.ToLower c := by
  obtain ⟨h1, _, h3⟩ := hU c hc
  by_cases hrange : 65 ≤ c.toNat ∧ c.toNat ≤ 90
  · have hval : (Char.ofNat (c.toNat + 32)).toNat = c.toNat + 32 :=
      toNat_ofNat_small _ (by omega)
    rw [h3, if_pos hrange]
    obtain ⟨_, _, k3⟩ := hU (Char.ofNat (c.toNat + 32)) (by omega)
    rw [k3, if_neg (by omega)]
  · rw [h3, if_neg hrange, h3, if_neg hrange]

/-- C20. For every identifier on whose runes `ToLower` is idempotent (lower-casing a
lower-case form changes nothing), the result of `lowerCaptain` has as many runes as the
identifier, and lower-casing every rune of the result gives the same string as lower-casing
every rune of the identifier. -/
theorem lowerCaptain_case_only (U : Unicode) (s : String)
    (hidem : ∀ c ∈ s.data, U.ToLower (U.ToLower c) = U.ToLower c) :
    (lowerCaptain U s).length = s.length ∧
    String.mk ((lowerCaptain U s).data.map U.ToLower) = String.mk (s.data.map U.ToLower) := by
  cases hd : s.data with
  | nil => rw [lowerCaptain_nil U s hd]; simp [hd]
  | cons c cs =>
    rw [lowerCaptain_cons U s c cs hd]
    by_cases hl : U.IsLower c = true
    · rw [if_pos hl]; simp [hd]
    · rw [if_neg hl]
      rw [hd] at hidem
      constructor
      · show (lowerLoop U c (c :: cs)).length = s.data.length
        rw [lowerLoop_length, hd]
      · show String.mk ((lowerLoop U c (c :: cs)).map U.ToLower) = _
        rw [lowerLoop_map_toLower U c (c :: cs) hidem]

/-- C20, at the identifier `HTTPServer`. -/
theorem lowerCaptain_case_only_witness :
    (∀ c ∈ "HTTPServer".data,
      unicodeExcerpt.ToLower (unicodeExcerpt.ToLower c) = unicodeExcerpt.ToLower c) ∧
    (lowerCaptain unicodeExcerpt "HTTPServer").length = "HTTPServer".length ∧
    String.mk ((lowerCaptain unicodeExcerpt "HTTPServer").data.map unicodeExcerpt.ToLower) =
      String.mk ("HTTPServer".data.map unicodeExcerpt.ToLower) :=
  ⟨by decide, lowerCaptain_case_only unicodeExcerpt "HTTPServer" (by decide)⟩

/-! ## Derived identifiers that collide -/

theorem servicePairs_perm {fs gs : List File} (h : fs.Perm gs) :
    (servicePairs fs).Perm (servicePairs gs) :=
  List.Perm.flatMap_right _ h

theorem occurrences_perm {α : Type} [DecidableEq α] (a : α) {l1 l2 : List α}
    (h : l1.Perm l2) : occurrences a l1 = occurrences a l2 :=
  h.countP_eq _

theorem occurrences_map_le {α β : Type} [DecidableEq α] [DecidableEq β] (f : α → β) (a : α)
    (l : List α) : occurrences a l ≤ occurrences (f a) (l.map f) := by
  unfold occurrences
  rw [List.countP_map]
  apply List.countP_mono_left
  intro x _ hx
  have hxa : x = a := of_decide_eq_true hx
  simp [hxa]

theorem mem_of_occurrences_pos {α : Type} [DecidableEq α] {a : α} {l : List α}
    (h : 0 < occurrences a l) : a ∈ l := by
  obtain ⟨x, hx, hxa⟩ := List.countP_pos_iff.1 h
  have : x = a := of_decide_eq_true hxa
  exact this ▸ hx

/-- The struct declaration has at least as many fields named `lowerCaptain(name)` as there
are pairs with the service name `name`. -/
theorem count_field_names (U : Unicode) (files : List File) (name : String) :
    occurrences name ((servicePairs files).map (fun p => p.2.GoName)) ≤
      occurrences (some (Arg.str (lowerCaptain U name)))
        ((structBody U files).map List.head?) := by
  rw [structBody_eq, List.map_map]
  have hmap : (servicePairs files).map (List.head? ∘ fun p =>
        [Arg.str (lowerCaptain U p.2.GoName), Arg.str " ",
         Arg.ident ⟨p.2.GoName ++ "Client", p.1.GoImportPath⟩]) =
      ((servicePairs files).map (fun p => p.2.GoName)).map
        (fun n => some (Arg.str (lowerCaptain U n))) := by
    rw [List.map_map]
    rfl
  rw [hmap]
  exact occurrences_map_le (fun n => some (Arg.str (lowerCaptain U n))) name _

/-- When the block of every element starts with a line made from the element's key, the
concatenated blocks hold that line of a key at least as often as the key occurs. -/
theorem occurrences_flatMap_head {α β κ : Type} [DecidableEq β] [DecidableEq κ] (key : α → κ)
    (blk : α → List β) (first : κ → β) (h : ∀ p, ∃ t, blk p = first (key p) :: t) (k : κ)
    (ps : List α) : occurrences k (ps.map key) ≤ occurrences (first k) (ps.flatMap blk) := by
  unfold occurrences
  induction ps with
  | nil => simp
  | cons p ps ih =>
    obtain ⟨t, ht⟩ := h p
    rw [List.map_cons, List.flatMap_cons, List.countP_append, ht, List.countP_cons,
      List.countP_cons]
    by_cases hp : key p = k
    · subst hp
      simp only [decide_True, if_true]
      omega
    · simp only [hp, decide_False, Bool.false_eq_true, if_false, Nat.add_zero]
      omega

/-- The wrapper types have at least as many declarations of the type
`lowerCaptain(name)+"Wrapper"` as there are pairs with the service name `name`. -/
theorem count_wrapper_types (U : Unicode) (files : List File) (name : String) :
    occurrences name ((servicePairs files).map (fun p => p.2.GoName)) ≤
      occurrences [Arg.str ("type " ++ (lowerCaptain U name ++ "Wrapper") ++ " struct \x7b")]
        (wrapperTypes U files) := by
  rw [wrapperTypes_eq]
  exact occurrences_flatMap_head (fun p : File × Service => p.2.GoName) _
    (fun n => [Arg.str ("type " ++ (lowerCaptain U n ++ "Wrapper") ++ " struct \x7b")])
    (fun p => ⟨_, rfl⟩) name (servicePairs files)

/-- The struct fields in the layout, between the line that opens the struct declaration
and the lines that close it. -/
theorem layout_struct_fields (E : Env) (files : List File) (sources : String) :
    ∃ before after, clientLayout E files sources =
      before ++ [[Arg.str "type serviceClients struct \x7b"]] ++ structBody E.unicode files ++
        [[Arg.str "\x7d"], []] ++ after :=
  ⟨linesBeforeInterface E sources ++ interfaceBody files ++ linesBeforeFactory ++
      factoryBody E.unicode files ++ [[Arg.str "\t\x7d"], [Arg.str "\x7d"], []],
    accessorImpls E.unicode files ++ [[]] ++ wrapperTypes E.unicode files,
    by
      simp only [clientLayout, linesBeforeStruct, linesBeforeAccessors, List.append_assoc,
        List.cons_append, List.nil_append]⟩

/-- A line occurs in the layout at least as often as in the wrapper types. -/
theorem occurrences_wrapperTypes_le (E : Env) (files : List File) (sources : String)
    (line : Line) :
    occurrences line (wrapperTypes E.unicode files) ≤
      occurrences line (clientLayout E files sources) := by
  unfold occurrences clientLayout
  rw [List.countP_append]
  omega

/-- C17. Provided `sort.Slice` rearranges the slice and `genProvider` does not fail and
keeps the output files it finds: when the input has no conflict and the service name `name`
occurs in two (file, service) pairs (in two files, or twice in one file), `generateFiles`
returns no error, and the plugin then has the output file `client.go` that `genClient`
added, in whose buffer the lines between `type serviceClients struct` and its closing brace
hold two fields named `lowerCaptain(name)`, and which holds two declarations of the type
`lowerCaptain(name)+"Wrapper"`. -/
theorem generateFiles_duplicate_names_pass (E : Env) (hsort : SortPermutes E.sortSlice)
    (hprov : ProviderSucceeds E.genProvider) (hkeep : ProviderKeeps E.genProvider)
    (gen : Plugin) (files : List File) (name : String) (hno : ¬ HasConflict files)
    (hdup : 2 ≤ occurrences name ((servicePairs files).map (fun p => p.2.GoName))) :
    (generateFiles E gen files).2 = none ∧
    ∃ (sorted : List File) (sources : String) (u : GeneratedFile),
      sorted = E.sortSlice lessByName files ∧
      u = ⟨"client.go", "client", genClientLines E sorted sources⟩ ∧
      genClient E gen sorted (sorted.find? File.hasServices) sources =
        (⟨gen.genFiles ++ [u]⟩, none) ∧
      u ∈ (generateFiles E gen files).1.genFiles ∧
      (∃ before fields after,
        u.buf = before ++ [[Arg.str "type serviceClients struct \x7b"]] ++ fields ++
          [[Arg.str "\x7d"], []] ++ after ∧
        fields = structBody E.unicode sorted ∧
        2 ≤ occurrences (some (Arg.str (lowerCaptain E.unicode name)))
          (fields.map List.head?)) ∧
      2 ≤ occurrences
        [Arg.str ("type " ++ (lowerCaptain E.unicode name ++ "Wrapper") ++ " struct \x7b")]
        u.buf ∧
      2 ≤ occurrences (some (Arg.str (lowerCaptain E.unicode name)))
        ((structBody E.unicode sorted).map List.head?) ∧
      2 ≤ occurrences
        [Arg.str ("type " ++ (lowerCaptain E.unicode name ++ "Wrapper") ++ " struct \x7b")]
        (wrapperTypes E.unicode sorted) := by
  have hsvc : ∃ f ∈ files, f.hasServices = true := by
    have hpos : 0 < occurrences name ((servicePairs files).map (fun p => p.2.GoName)) := by
      omega
    obtain ⟨p, hp, _⟩ := List.mem_map.1 (mem_of_occurrences_pos hpos)
    obtain ⟨hf, hs⟩ := mem_servicePairs.1 (show (p.1, p.2) ∈ servicePairs files from hp)
    refine ⟨p.1, hf, ?_⟩
    unfold File.hasServices
    exact decide_eq_true (List.length_pos_of_mem hs)
  have hcount : occurrences name
        ((servicePairs (E.sortSlice lessByName files)).map (fun p => p.2.GoName)) =
      occurrences name ((servicePairs files).map (fun p => p.2.GoName)) :=
    occurrences_perm name ((servicePairs_perm (hsort lessByName files)).map _)
  have heq := generateFiles_of_no_conflict hsort gen hno hsvc
  have hfields : 2 ≤ occurrences (some (Arg.str (lowerCaptain E.unicode name)))
      ((structBody E.unicode (E.sortSlice lessByName files)).map List.head?) :=
    le_trans (by omega) (count_field_names E.unicode _ name)
  have hwrap : 2 ≤ occurrences
      [Arg.str ("type " ++ (lowerCaptain E.unicode name ++ "Wrapper") ++ " struct \x7b")]
      (wrapperTypes E.unicode (E.sortSlice lessByName files)) :=
    le_trans (by omega) (count_wrapper_types E.unicode _ name)
  have hlay : genClientLines E (E.sortSlice lessByName files)
        (", ".intercalate (servicePaths (E.sortSlice lessByName files))) =
      clientLayout E (E.sortSlice lessByName files)
        (", ".intercalate (servicePaths (E.sortSlice lessByName files))) := rfl
  obtain ⟨before, after, hbuf⟩ := layout_struct_fields E
    (E.sortSlice lessByName files)
    (", ".intercalate (servicePaths (E.sortSlice lessByName files)))
  rw [← hlay] at hbuf
  refine ⟨?_, E.sortSlice lessByName files,
    ", ".intercalate (servicePaths (E.sortSlice lessByName files)), _, rfl, rfl, rfl, ?_,
    ⟨before, _, after, hbuf, rfl, hfields⟩, ?_, hfields, hwrap⟩
  · rw [heq]; exact hprov _ _ _ _
  · rw [heq]
    exact hkeep _ _ _ _ _ (List.mem_append_right _ (List.mem_singleton_self _))
  · show 2 ≤ occurrences _ (genClientLines E _ _)
    rw [hlay]
    exact le_trans hwrap (occurrences_wrapperTypes_le E _ _ _)

/-- C17, at two files of one package and import path that each declare a service `Foo`. -/
theorem generateFiles_duplicate_names_pass_witness :
    SortPermutes envInsertion.sortSlice ∧ ProviderSucceeds envInsertion.genProvider ∧
    ProviderKeeps envInsertion.genProvider ∧ ¬ HasConflict [fooFileOne, fooFileTwo] ∧
    2 ≤ occurrences "Foo" ((servicePairs [fooFileOne, fooFileTwo]).map (fun p => p.2.GoName)) ∧
    (generateFiles envInsertion ⟨[]⟩ [fooFileOne, fooFileTwo]).2 = none ∧
    ∃ (sorted : List File) (sources : String) (u : GeneratedFile),
      sorted = envInsertion.sortSlice lessByName [fooFileOne, fooFileTwo] ∧
      u = ⟨"client.go", "client", genClientLines envInsertion sorted sources⟩ ∧
      genClient envInsertion ⟨[]⟩ sorted (sorted.find? File.hasServices) sources =
        (⟨([] : List GeneratedFile) ++ [u]⟩, none) ∧
      u ∈ (generateFiles envInsertion ⟨[]⟩ [fooFileOne, fooFileTwo]).1.genFiles ∧
      (∃ before fields after,
        u.buf = before ++ [[Arg.str "type serviceClients struct \x7b"]] ++ fields ++
          [[Arg.str "\x7d"], []] ++ after ∧
        fields = structBody envInsertion.unicode sorted ∧
        2 ≤ occurrences (some (Arg.str (lowerCaptain envInsertion.unicode "Foo")))
          (fields.map List.head?)) ∧
      2 ≤ occurrences
        [Arg.str ("type " ++ (lowerCaptain envInsertion.unicode "Foo" ++ "Wrapper") ++
          " struct \x7b")]
        u.buf ∧
      2 ≤ occurrences (some (Arg.str (lowerCaptain envInsertion.unicode "Foo")))
        ((structBody envInsertion.unicode sorted).map List.head?) ∧
      2 ≤ occurrences
        [Arg.str ("type " ++ (lowerCaptain envInsertion.unicode "Foo" ++ "Wrapper") ++
          " struct \x7b")]
        (wrapperTypes envInsertion.unicode sorted) :=
  have hno : ¬ HasConflict [fooFileOne, fooFileTwo] := by
    rintro ⟨f, hf, g, hg, hfq, hgq, hfg⟩
    revert f g
    decide
  have hdup : 2 ≤ occurrences "Foo"
      ((servicePairs [fooFileOne, fooFileTwo]).map (fun p => p.2.GoName)) := by decide
  ⟨insertionSort_permutes, genProviderModel_succeeds, genProviderModel_keeps, hno, hdup,
    generateFiles_duplicate_names_pass envInsertion insertionSort_permutes
      genProviderModel_succeeds genProviderModel_keeps ⟨[]⟩ _ "Foo" hno hdup⟩

/-- C18. With tables that agree with Go's `unicode` on ASCII, the distinct identifiers `ABC`
and `ABc`, which both start with the upper-case letter `A`, have the same image `abc` under
`lowerCaptain`; for a file that declares services of these two names, the struct
declaration has two fields `abc` and the wrapper types have two declarations of
`abcWrapper`. -/
theorem lowerCaptain_not_injective (U : Unicode) (hU : GoASCII U) :
    "ABC" ≠ "ABc" ∧ U.IsUpper 'A' = true ∧
    lowerCaptain U "ABC" = "abc" ∧ lowerCaptain U "ABc" = "abc" ∧
    structBody U [acronymFile] =
      [ [.str "abc", .str " ", .ident ⟨"ABCClient", "x/p"⟩],
        [.str "abc", .str " ", .ident ⟨"ABcClient", "x/p"⟩] ] ∧
    wrapperTypes U [acronymFile] =
      [ [.str "type abcWrapper struct \x7b"],
        [.str "\tclient ", .ident ⟨"ABCClient", "x/p"⟩],
        [.str "\topts   []", .ident ⟨"CallOption", grpcPackage⟩],
        [.str "\x7d"],
        [],
        [.str "type abcWrapper struct \x7b"],
        [.str "\tclient ", .ident ⟨"ABcClient", "x/p"⟩],
        [.str "\topts   []", .ident ⟨"CallOption", grpcPackage⟩],
        [.str "\x7d"],
        [] ] := by
  have h1 : lowerCaptain U "ABC" = "abc" := by
    rw [lowerCaptain_ascii U hU "ABC" (by decide)]; decide
  have h2 : lowerCaptain U "ABc" = "abc" := by
    rw [lowerCaptain_ascii U hU "ABc" (by decide)]; decide
  refine ⟨by decide, ?_, h1, h2, ?_, ?_⟩
  · rw [(hU 'A' (by decide)).1]; decide
  · simp only [structBody, acronymFile, List.flatMap_cons, List.flatMap_nil, List.append_nil,
      List.cons_append, List.nil_append, h1, h2, Ident]
    decide
  · simp only [wrapperTypes, acronymFile, List.flatMap_cons, List.flatMap_nil, List.append_nil,
      List.cons_append, List.nil_append, h1, h2, Ident]
    decide

/-- C18, at the excerpt of Go's tables. -/
theorem lowerCaptain_not_injective_witness :
    GoASCII unicodeExcerpt ∧
    ("ABC" ≠ "ABc" ∧ unicodeExcerpt.IsUpper 'A' = true ∧
     lowerCaptain unicodeExcerpt "ABC" = "abc" ∧ lowerCaptain unicodeExcerpt "ABc" = "abc" ∧
     structBody unicodeExcerpt [acronymFile] =
       [ [.str "abc", .str " ", .ident ⟨"ABCClient", "x/p"⟩],
         [.str "abc", .str " ", .ident ⟨"ABcClient", "x/p"⟩] ] ∧
     wrapperTypes unicodeExcerpt [acronymFile] =
       [ [.str "type abcWrapper struct \x7b"],
         [.str "\tclient ", .ident ⟨"ABCClient", "x/p"⟩],
         [.str "\topts   []", .ident ⟨"CallOption", grpcPackage⟩],
         [.str "\x7d"],
         [],
         [.str "type abcWrapper struct \x7b"],
         [.str "\tclient ", .ident ⟨"ABcClient", "x/p"⟩],
         [.str "\topts   []", .ident ⟨"CallOption", grpcPackage⟩],
         [.str "\x7d"],
         [] ]) :=
  ⟨unicodeExcerpt_goASCII, lowerCaptain_not_injective unicodeExcerpt unicodeExcerpt_goASCII⟩

end GoClient
